import Mathlib

/-!
# Dependency scanner of `tools/scan_deps.js`

A shallow embedding of the Closure dependency scanner: the two indices
(`ProvideMap_`, `RequireMap_`), the line scanner (`extractNamespace`,
`scanFiles`, `extractRequires`), the closure resolver
(`extractClosureDependencies`, `scanDeps`) and the manifest generator
(`genAddDependency`, `genDeps`).

Modelling conventions.

* A JavaScript string is the list of its UTF-16 code units, one `Char` per
  unit (`Str`).
* A JavaScript object used as a dictionary is the list of its own properties
  in insertion order (`Obj`).  Two kinds of objects occur.  An object keyed by
  resolved paths (`reverse_`, the outer `map_` of `RequireMap_`, the objects of
  `getAllRequires` and `genAddDependency`) is a plain dictionary: a resolved
  path is absolute, so it is not a name that objects treat specially
  (`Obj.set`, `Obj.keys`).  An object keyed by module names (`map_` of
  `ProvideMap_`, the inner objects of `RequireMap_`, the object of
  `getAllDependencies`, the working object of the resolver) follows the rules
  of JavaScript property names: a write to `__proto__` creates no property
  (`NameObj.set`), and `for (key in obj)` visits the array-index names first,
  in ascending order, then the other names in insertion order
  (`NameObj.forIn`).
* The call `this.map_.hasOwnProperty(ns)` of `ProvideMap_.prototype.get` throws
  a `TypeError` once a namespace named `hasOwnProperty` has been registered:
  `ProvideMap_.getCall` is the outcome of the call, `ProvideMap_.get` the value
  it returns when it returns.
* `null` is `none`.  A `null` used as a property name is the name `null`,
  as `ToPropertyKey` makes it (`toPropertyKey`).
* The `do ... while` loop of the resolver takes a round budget; the budget
  running out is `none`.
* Node's `path` and `fs` modules and the configuration are the fields of
  `Env`.  A call `pathMod.resolve(null)` throws; a function that can reach it
  returns an `Option`.
* `JSON.stringify` of an array of strings follows ECMAScript: elements between
  double quotes, separated by commas, with the double quote, the backslash and
  the control characters escaped.
-/

namespace ScanDeps

/-- A string: its sequence of code units. -/
abbrev Str := List Char

/-- An object used as a dictionary: own properties in insertion order. -/
abbrev Obj (α : Type) := List (Str × α)

/-- An object keyed by module names, which may be any text a scanned line
holds. -/
abbrev NameObj (α : Type) := Obj α

namespace Obj

/-- The check `o.hasOwnProperty(k)`. -/
def hasOwnProperty {α : Type} (o : Obj α) (k : Str) : Bool :=
  o.any (fun e => e.1 == k)

/-- The read `o[k]` of an own property (`none` when `k` is not a property). -/
def get? {α : Type} : Obj α → Str → Option α
  | [], _ => none
  | (k', v) :: rest, k => if k' = k then some v else get? rest k

/-- The write `o[k] = v` for a key that is a resolved path: an existing
property keeps its place, a new one is appended. -/
def set {α : Type} : Obj α → Str → α → Obj α
  | [], k, v => [(k, v)]
  | (k', v') :: rest, k, v =>
    if k' = k then (k, v) :: rest else (k', v') :: set rest k v

/-- The names visited by `for (key in o)` on an object keyed by resolved
paths: the own properties in insertion order. -/
def keys {α : Type} (o : Obj α) : List Str :=
  o.map Prod.fst

end Obj

/-! ## Objects keyed by module names -/

/-- The property name `__proto__`: an assignment to it runs the setter
inherited from `Object.prototype`, which ignores a string or a boolean, and
creates no own property. -/
def protoName : Str := "__proto__".toList

/-- The value of a decimal digit. -/
def digit? (c : Char) : Option Nat :=
  if 48 ≤ c.toNat ∧ c.toNat ≤ 57 then some (c.toNat - 48) else none

/-- The value of a text made of decimal digits only. -/
def decimal? (s : Str) : Option Nat :=
  s.foldl
    (fun acc c =>
      match acc, digit? c with
      | some a, some d => some (10 * a + d)
      | _, _ => none)
    (some 0)

/-- The array index a property name denotes, if it denotes one: the name is
the canonical decimal numeral (no leading zero) of a number below
`2^32 - 1`. -/
def arrayIndex? (name : Str) : Option Nat :=
  match name with
  | [] => none
  | c :: rest =>
    if c = '0' ∧ rest ≠ [] then none
    else
      match decimal? (c :: rest) with
      | some v => if v < 4294967295 then some v else none
      | none => none

/-- The order in which `for (key in obj)` visits own property names given in
insertion order: the array indices in ascending order, then the other names
in insertion order. -/
def enumOrder (names : List Str) : List Str :=
  (names.filter (fun n => (arrayIndex? n).isSome)).insertionSort
      (fun a b => (arrayIndex? a).getD 0 ≤ (arrayIndex? b).getD 0)
    ++ names.filter (fun n => (arrayIndex? n).isNone)

namespace NameObj

/-- The write `o[name] = v` for a string or boolean `v`: nothing happens for
the name `__proto__`; otherwise an existing property keeps its place and a new
one is appended. -/
def set {α : Type} (o : NameObj α) (name : Str) (v : α) : NameObj α :=
  if name = protoName then o else Obj.set o name v

/-- The own property names in insertion order; an entry named `__proto__`,
which no write creates, is not one. -/
def names {α : Type} (o : NameObj α) : List Str :=
  (Obj.keys o).filter (fun k => k ≠ protoName)

/-- The names visited by `for (key in o)`, in the order of the visit. -/
def forIn {α : Type} (o : NameObj α) : List Str :=
  enumOrder (names o)

end NameObj

/-- The conversion of a nullable string used as a property name. -/
def toPropertyKey : Option Str → Str
  | some s => s
  | none => "null".toList

/-- Truthiness of a nullable string: `null` and the empty string are falsy. -/
def truthy : Option Str → Bool
  | some (_ :: _) => true
  | _ => false

/-! ## String primitives -/

/-- The call `s.slice(b, e)` for non-negative `b` and `e`. -/
def slice (s : Str) (b e : Nat) : Str :=
  (s.take e).drop b

/-- The call `s.indexOf(c)` for a one-character search string: the position of
the first occurrence, `-1` when there is none. -/
def indexOf (s : Str) (c : Char) : Int :=
  if c ∈ s then (s.indexOf c : Int) else -1

/-- The call `s.substring(start, end)`: both arguments are clamped to
`[0, s.length]` and swapped when the first exceeds the second. -/
def substring (s : Str) (start stop : Int) : Str :=
  let len : Int := s.length
  let a := min (max start 0) len
  let b := min (max stop 0) len
  (s.take (max a b).toNat).drop (min a b).toNat

/-- The call `s.split(sep)` for a one-character separator. -/
def split (sep : Char) : Str → List Str
  | [] => [[]]
  | c :: cs =>
    if c = sep then [] :: split sep cs
    else
      match split sep cs with
      | [] => [[c]]
      | l :: ls => (c :: l) :: ls

/-! ## The indices -/

/-- The provide index: `map_` from namespace to path, `reverse_` from path to
the namespaces registered for it. -/
structure ProvideMap_ where
  map_ : NameObj Str
  reverse_ : Obj (List Str)
  deriving DecidableEq, Repr

/-- The require index: `map_` from path to the object whose property names are
the required namespaces. -/
structure RequireMap_ where
  map_ : Obj (NameObj Bool)
  deriving DecidableEq, Repr

namespace ProvideMap_

/-- The constructor `new ProvideMap_()`. -/
def new : ProvideMap_ :=
  { map_ := [], reverse_ := [] }

/-- The method `ProvideMap_.prototype.set`. -/
def set (p : ProvideMap_) (ns path : Str) : ProvideMap_ :=
  let reverse1 :=
    if !p.reverse_.hasOwnProperty path then p.reverse_.set path [] else p.reverse_
  { map_ := NameObj.set p.map_ ns path
    reverse_ := reverse1.set path (((reverse1.get? path).getD []) ++ [ns]) }

/-- The value the method `ProvideMap_.prototype.get` returns, when the call
returns. -/
def get (p : ProvideMap_) (ns : Str) : Option Str :=
  if p.map_.hasOwnProperty ns then p.map_.get? ns else none

/-- The method `ProvideMap_.prototype.getAllProvides`. -/
def getAllProvides (p : ProvideMap_) : Obj (List Str) :=
  p.reverse_

end ProvideMap_

/-- The outcome of a call that may throw a `TypeError`. -/
inductive Outcome (α : Type) where
  | returned (value : α)
  | typeError
  deriving DecidableEq, Repr

/-- The call `provideMap.get(ns)`.  Its first step reads the property
`hasOwnProperty` of `this.map_` and calls it: once a namespace named
`hasOwnProperty` has been registered that property is a path, a string, and
the call throws a `TypeError`. -/
def ProvideMap_.getCall (p : ProvideMap_) (ns : Str) : Outcome (Option Str) :=
  if p.map_.hasOwnProperty "hasOwnProperty".toList then Outcome.typeError
  else Outcome.returned (p.get ns)

namespace RequireMap_

/-- The constructor `new RequireMap_()`. -/
def new : RequireMap_ :=
  { map_ := [] }

/-- The method `RequireMap_.prototype.set`. -/
def set (r : RequireMap_) (path ns : Str) : RequireMap_ :=
  let map1 := if !r.map_.hasOwnProperty path then r.map_.set path [] else r.map_
  { map_ := Obj.set map1 path (NameObj.set ((map1.get? path).getD []) ns true) }

/-- The method `RequireMap_.prototype.objectKeys_`. -/
def objectKeys_ {α : Type} (obj : NameObj α) : List Str :=
  (NameObj.forIn obj).foldl (fun results key => results ++ [key]) []

/-- The method `RequireMap_.prototype.get`. -/
def get (r : RequireMap_) (path : Str) : List Str :=
  if r.map_.hasOwnProperty path then objectKeys_ ((r.map_.get? path).getD []) else []

/-- The method `RequireMap_.prototype.getAllDependencies`. -/
def getAllDependencies (r : RequireMap_) : List Str :=
  let results : NameObj Bool :=
    (Obj.keys r.map_).foldl
      (fun results path =>
        (NameObj.forIn ((r.map_.get? path).getD [])).foldl
          (fun results key => NameObj.set results key true) results)
      []
  objectKeys_ results

/-- The method `RequireMap_.prototype.getAllRequires`. -/
def getAllRequires (r : RequireMap_) : Obj (List Str) :=
  (Obj.keys r.map_).foldl
    (fun results key =>
      Obj.set results key
        ((NameObj.forIn ((r.map_.get? key).getD [])).foldl (fun l value => l ++ [value]) []))
    []

end RequireMap_

/-! ## Scanning -/

/-- The environment of the tool: Node's `path` and `fs` modules, the
configuration, and the file listing that `relativeGlob` produces. -/
structure Env where
  /-- The function `pathMod.resolve`. -/
  resolve : Str → Str
  /-- The function `pathMod.join`. -/
  join : Str → Str → Str
  /-- The function `pathMod.relative`. -/
  relative : Str → Str → Str
  /-- The text `fsMod.readFileSync(path).toString()`. -/
  readFile : Str → Str
  /-- The list `relativeGlob(startPath)`. -/
  relativeGlob : Str → List Str
  /-- The setting `config.CLOSURE_LIBRARY_PATH`. -/
  CLOSURE_LIBRARY_PATH : Str

/-- The local function `extractNamespace` of `scanFiles`. -/
def extractNamespace (line pattern : Str) : Option Str :=
  if slice line 0 pattern.length = pattern then
    some (substring line ((pattern.length : Int) + 2) (indexOf line ';' - 2))
  else
    none

/-- The body of `contents.forEach` in `scanFiles`, for one line of the file at
`realPath`. -/
def scanLine (realPath : Str) (st : ProvideMap_ × RequireMap_) (line : Str) :
    ProvideMap_ × RequireMap_ :=
  let ns := extractNamespace line "goog.require".toList
  let requireMap := if truthy ns then st.2.set realPath (ns.getD []) else st.2
  let ns := extractNamespace line "goog.provide".toList
  let provideMap := if truthy ns then st.1.set (ns.getD []) realPath else st.1
  (provideMap, requireMap)

/-- The function `scanFiles`. -/
def scanFiles (env : Env) (filePaths : List Str) (provideMap : ProvideMap_)
    (requireMap : RequireMap_) : ProvideMap_ × RequireMap_ :=
  filePaths.foldl
    (fun st path =>
      let realPath := env.resolve path
      let contents := split '\n' (env.readFile realPath)
      contents.foldl (scanLine realPath) st)
    (provideMap, requireMap)

/-! ## Closure resolution -/

/-- The working object `map` of `extractClosureDependencies`: namespace to the
nullable path `closureProvider.get` gave for it. -/
abbrev WorkMap := NameObj (Option Str)

/-- The names visited by `for (var key in map)` on the working object. -/
def WorkMap.keys (map : WorkMap) : List Str :=
  NameObj.forIn map

/-- The read `map[key]` of the working object. -/
def WorkMap.read (map : WorkMap) (key : Str) : Option Str :=
  (map.get? key).getD none

/-- The seed list `closureDeps`. -/
def closureDeps (codeRequire : RequireMap_) : List Str :=
  codeRequire.getAllDependencies.filter (fun element => slice element 0 4 == "goog".toList)

/-- The statement `requires.forEach(ns => map[ns] = closureProvider.get(ns))`.
The names written come from `for (key in obj)` enumerations, which never hold
`__proto__`. -/
def addRequires (closureProvider : ProvideMap_) (map : WorkMap) (requires : List Str) :
    WorkMap :=
  requires.foldl (fun map ns => NameObj.set map ns (closureProvider.get ns)) map

/-- The initial working object: every seed with its provider. -/
def seedMap (closureProvider : ProvideMap_) (codeRequire : RequireMap_) : WorkMap :=
  addRequires closureProvider [] (closureDeps codeRequire)

/-- The local function `countKeys`. -/
def countKeys {α : Type} (object : NameObj α) : Nat :=
  ((NameObj.forIn object).foldl (fun keys key => keys ++ [key]) []).length

/-- One pass of `for (var key in map)`: the names enumerated are those present
when the pass starts; the body reads and writes the current object. -/
def expandRound (closureProvider : ProvideMap_) (closureRequire : RequireMap_)
    (map : WorkMap) : WorkMap :=
  (WorkMap.keys map).foldl
    (fun map key =>
      addRequires closureProvider map (closureRequire.get (toPropertyKey (map.read key))))
    map

/-- The `do ... while (countKeys(map) != oldCount)` loop with a budget of
rounds. -/
def expandLoop (closureProvider : ProvideMap_) (closureRequire : RequireMap_) :
    Nat → WorkMap → Option WorkMap
  | 0, _ => none
  | fuel + 1, map =>
    let oldCount := countKeys map
    let map1 := expandRound closureProvider closureRequire map
    if countKeys map1 != oldCount then expandLoop closureProvider closureRequire fuel map1
    else some map1

/-- The working object at the exit of the loop. -/
def closureMap (closureProvider : ProvideMap_) (closureRequire codeRequire : RequireMap_)
    (fuel : Nat) : Option WorkMap :=
  expandLoop closureProvider closureRequire fuel (seedMap closureProvider codeRequire)

/-- The final statement of `extractClosureDependencies`: the value of every
name of the working object, in enumeration order. -/
def closureFiles (map : WorkMap) : List (Option Str) :=
  (WorkMap.keys map).foldl (fun closureFiles key => closureFiles ++ [map.read key]) []

/-- Lines 229 to 261 of `extractClosureDependencies`, over the two indices of
the library. -/
def closureOf (closureProvider : ProvideMap_) (closureRequire codeRequire : RequireMap_)
    (fuel : Nat) : Option (List (Option Str)) :=
  (closureMap closureProvider closureRequire codeRequire fuel).map closureFiles

/-- The indices `closureProvider` and `closureRequire` that
`extractClosureDependencies` scans from the library. -/
def closureIndices (env : Env) : ProvideMap_ × RequireMap_ :=
  scanFiles env (env.relativeGlob (env.CLOSURE_LIBRARY_PATH ++ "/closure/goog".toList))
    ProvideMap_.new RequireMap_.new

/-- The function `extractClosureDependencies`. -/
def extractClosureDependencies (env : Env) (codeRequire : RequireMap_) (fuel : Nat) :
    Option (List (Option Str)) :=
  closureOf (closureIndices env).1 (closureIndices env).2 codeRequire fuel

/-- The path of the bootstrap file appended by `scanDeps`. -/
def basePath (env : Env) : Str :=
  env.resolve (env.join env.CLOSURE_LIBRARY_PATH "closure/goog/base.js".toList)

/-- The function `scanDeps`. -/
def scanDeps (env : Env) (fuel : Nat) : Option (List (Option Str)) :=
  let requireMap := (scanFiles env (env.relativeGlob "lib".toList) ProvideMap_.new RequireMap_.new).2
  (extractClosureDependencies env requireMap fuel).map (fun l => l ++ [some (basePath env)])

/-! ## Specification predicates -/

/-- The names the loop body adds for `key`: the requirements registered for
the value the provider gives for `key`. -/
def requiresOf (closureProvider : ProvideMap_) (closureRequire : RequireMap_) (key : Str) :
    List Str :=
  closureRequire.get (toPropertyKey (closureProvider.get key))

/-- Every name of the working object carries the provider's answer for it. -/
def WorkInv (closureProvider : ProvideMap_) (map : WorkMap) : Prop :=
  ∀ k ∈ map.keys, map.get? k = some (closureProvider.get k)

/-- The working object is closed under the loop body. -/
def Closed (closureProvider : ProvideMap_) (closureRequire : RequireMap_) (map : WorkMap) :
    Prop :=
  ∀ key ∈ map.keys, ∀ n ∈ requiresOf closureProvider closureRequire key, n ∈ map.keys

/-- Reachability by require-hops through defining files: a seed is reachable,
and so is every name required by the file that defines a reachable name. -/
inductive Reachable (closureProvider : ProvideMap_) (closureRequire : RequireMap_)
    (seeds : List Str) : Str → Prop
  | seed {n : Str} : n ∈ seeds → Reachable closureProvider closureRequire seeds n
  | hop {m f n : Str} : Reachable closureProvider closureRequire seeds m →
      closureProvider.get m = some f → n ∈ closureRequire.get f →
      Reachable closureProvider closureRequire seeds n

/-- Reachability as the loop body computes it: the hop goes through
`requiresOf`, whatever the provider answered. -/
inductive ReachableKey (closureProvider : ProvideMap_) (closureRequire : RequireMap_)
    (seeds : List Str) : Str → Prop
  | seed {n : Str} : n ∈ seeds → ReachableKey closureProvider closureRequire seeds n
  | hop {m n : Str} : ReachableKey closureProvider closureRequire seeds m →
      n ∈ requiresOf closureProvider closureRequire m →
      ReachableKey closureProvider closureRequire seeds n

/-- The loop invariant of `extractClosureDependencies` for the seed list
`seeds`. -/
def Good (closureProvider : ProvideMap_) (closureRequire : RequireMap_) (seeds : List Str)
    (map : WorkMap) : Prop :=
  WorkInv closureProvider map ∧ map.keys.Nodup ∧ (∀ s ∈ seeds, s ∈ map.keys) ∧
    ∀ k ∈ map.keys, ReachableKey closureProvider closureRequire seeds k

/-- The non-empty names extracted from the lines that begin with `pattern`,
in line order. -/
def extractedNames (pattern : Str) (lines : List Str) : List Str :=
  (lines.filterMap (fun line => extractNamespace line pattern)).filter (fun n => n ≠ [])

/-- Appending to a list the names it does not hold yet, one at a time. -/
def appendNew (l names : List Str) : List Str :=
  names.foldl (fun l n => if n ∈ l then l else l ++ [n]) l

/-- A budget of rounds that always suffices: one more than the number of seeds
plus the number of distinct names required in the library index. -/
def roundBound (closureRequire codeRequire : RequireMap_) : Nat :=
  (closureDeps codeRequire).length + closureRequire.getAllDependencies.length

/-- The require index that `scanDeps` scans from the directory `lib`. -/
def libRequire (env : Env) : RequireMap_ :=
  (scanFiles env (env.relativeGlob "lib".toList) ProvideMap_.new RequireMap_.new).2

/-! ## Example indices -/

/-- Library provide index: `X.js` provides `goog.X`, `Y.js` provides `goog.Y`. -/
def exProvider : ProvideMap_ :=
  (ProvideMap_.new.set "goog.X".toList "/X.js".toList).set "goog.Y".toList "/Y.js".toList

/-- Library require index: `X.js` requires `goog.Y`. -/
def exRequire : RequireMap_ :=
  RequireMap_.new.set "/X.js".toList "goog.Y".toList

/-- Application require index: `app.js` requires `goog.X`. -/
def exApp : RequireMap_ :=
  RequireMap_.new.set "/app.js".toList "goog.X".toList

/-- An environment: the working directory is `/work`, the library is at `/cl`;
`lib/app.js` requires `goog.X`; in the library `X.js` provides `goog.X` and
requires `goog.Y`, `Y.js` provides `goog.Y`, `Z.js` provides `goog.Z`. -/
def exEnv : Env where
  resolve := fun p =>
    match p with
    | '/' :: _ => p
    | _ => "/work/".toList ++ p
  join := fun a b => a ++ '/' :: b
  relative := fun _ p => p
  readFile := fun p =>
    if p = "/work/lib/app.js".toList then
      "// app\ngoog.require(\x27goog.X\x27);\nvar x;".toList
    else if p = "/cl/closure/goog/X.js".toList then
      "goog.provide(\x27goog.X\x27);\ngoog.require(\x27goog.Y\x27);\n".toList
    else if p = "/cl/closure/goog/Y.js".toList then
      "goog.provide(\x27goog.Y\x27);\n".toList
    else if p = "/cl/closure/goog/Z.js".toList then
      "goog.provide(\x27goog.Z\x27);\n".toList
    else []
  relativeGlob := fun d =>
    if d = "lib".toList then ["lib/app.js".toList]
    else if d = "/cl/closure/goog".toList then
      ["/cl/closure/goog/X.js".toList, "/cl/closure/goog/Y.js".toList,
        "/cl/closure/goog/Z.js".toList]
    else []
  CLOSURE_LIBRARY_PATH := "/cl".toList

/-- Application require index: `app.js` requires `goog.X` and `goog.W`; no
library file provides `goog.W`. -/
def exAppMissing : RequireMap_ :=
  (RequireMap_.new.set "/app.js".toList "goog.X".toList).set "/app.js".toList "goog.W".toList

/-- Library provide index: `X.js` provides both `goog.A` and `goog.B`. -/
def exProviderTwo : ProvideMap_ :=
  (ProvideMap_.new.set "goog.A".toList "/X.js".toList).set "goog.B".toList "/X.js".toList

/-- Application require index: `app.js` requires `goog.A` and `goog.B`. -/
def exAppTwo : RequireMap_ :=
  (RequireMap_.new.set "/app.js".toList "goog.A".toList).set "/app.js".toList "goog.B".toList

/-- Library require index with a cycle: `X.js` requires `goog.Y` and `Y.js`
requires `goog.X`. -/
def exRequireCycle : RequireMap_ :=
  (RequireMap_.new.set "/X.js".toList "goog.Y".toList).set "/Y.js".toList "goog.X".toList

/-- The example environment with an empty `lib` directory. -/
def exEnvEmpty : Env :=
  { exEnv with
    relativeGlob := fun d => if d = "lib".toList then [] else exEnv.relativeGlob d }

/-! ## Sequences of registrations -/

/-- A sequence of calls `set(ns, path)` on a provide index, in call order. -/
def ProvideMap_.setAll (p : ProvideMap_) (calls : List (Str × Str)) : ProvideMap_ :=
  calls.foldl (fun p c => p.set c.1 c.2) p

/-- A sequence of calls `set(path, ns)` on a require index, in call order. -/
def RequireMap_.setAll (r : RequireMap_) (calls : List (Str × Str)) : RequireMap_ :=
  calls.foldl (fun r c => r.set c.1 c.2) r

/-! ## Manifest generation -/

/-- The double quote. -/
def dquote : Char := Char.ofNat 34

/-- The backslash. -/
def backslash : Char := Char.ofNat 92

/-- The single quote. -/
def squote : Char := Char.ofNat 39

/-- A lower-case hexadecimal digit. -/
def hexDigit (n : Nat) : Char :=
  if n < 10 then Char.ofNat (48 + n) else Char.ofNat (87 + n)

/-- What `JSON.stringify` writes for one code unit of a string: the escapes of
the double quote, the backslash and the control characters. -/
def quoteJSONUnit (c : Char) : Str :=
  if c = dquote then [backslash, dquote]
  else if c = backslash then [backslash, backslash]
  else if c.toNat = 8 then [backslash, 'b']
  else if c.toNat = 9 then [backslash, 't']
  else if c.toNat = 10 then [backslash, 'n']
  else if c.toNat = 12 then [backslash, 'f']
  else if c.toNat = 13 then [backslash, 'r']
  else if c.toNat < 32 then
    [backslash, 'u', '0', '0', hexDigit (c.toNat / 16), hexDigit (c.toNat % 16)]
  else [c]

/-- The text `JSON.stringify(s)` of a string. -/
def quoteJSONString (s : Str) : Str :=
  dquote :: s.foldr (fun c acc => quoteJSONUnit c ++ acc) [dquote]

/-- The call `array.join(sep)` on an array of strings. -/
def arrayJoin (sep : Str) : List Str → Str
  | [] => []
  | [x] => x
  | x :: y :: rest => x ++ sep ++ arrayJoin sep (y :: rest)

/-- The text `JSON.stringify(array)` of an array of strings. -/
def JSON.stringify (array : List Str) : Str :=
  '[' :: (arrayJoin [','] (array.map quoteJSONString) ++ [']'])

/-- The body of the last loop of `genAddDependency`: the line for `key`. -/
def manifestRecord (env : Env) (basePath : Str) (provide require : Obj (List Str))
    (key : Str) : Str :=
  let servePath := env.relative basePath key
  let line := "goog.addDependency(\x22../../".toList ++ servePath ++ "\x22, ".toList
  let line :=
    if provide.hasOwnProperty key then
      line ++ JSON.stringify ((provide.get? key).getD []) ++ ", ".toList
    else line ++ "[], ".toList
  let line :=
    if require.hasOwnProperty key then
      line ++ JSON.stringify ((require.get? key).getD []) ++ ");".toList
    else line ++ "[]);".toList
  line

/-- The object `set` of `genAddDependency`: the keys of `provide`, then those
of `require`. -/
def manifestKeys (provide require : Obj (List Str)) : Obj Bool :=
  require.keys.foldl (fun set key => set.set key true)
    (provide.keys.foldl (fun set key => set.set key true) [])

/-- The function `genAddDependency`. -/
def genAddDependency (env : Env) (basePath : Str) (provideMap : ProvideMap_)
    (requireMap : RequireMap_) : List Str :=
  let provide := provideMap.getAllProvides
  let require := requireMap.getAllRequires
  (manifestKeys provide require).keys.foldl
    (fun results key => results ++ [manifestRecord env basePath provide require key]) []

/-- The function `extractRequires`. -/
def extractRequires (env : Env) (filePath : Str) : Str :=
  let st := scanFiles env [filePath] ProvideMap_.new RequireMap_.new
  arrayJoin ", ".toList ((st.2.get filePath).map (fun ns => squote :: (ns ++ [squote])))

/-- The function `scanFiles` on an array that may hold `null`: the call
`pathMod.resolve(null)` throws, which ends the scan without a result. -/
def scanFilesNullable (env : Env) :
    List (Option Str) → ProvideMap_ → RequireMap_ → Option (ProvideMap_ × RequireMap_)
  | [], provideMap, requireMap => some (provideMap, requireMap)
  | none :: _, _, _ => none
  | some path :: rest, provideMap, requireMap =>
    scanFilesNullable env rest (scanFiles env [path] provideMap requireMap).1
      (scanFiles env [path] provideMap requireMap).2

/-- The file list of `genDeps`: the listings of the targets, concatenated. -/
def targetFiles (env : Env) (targets : List Str) : List Str :=
  targets.foldl (fun files target => files ++ env.relativeGlob target) []

/-- The function `genDeps`; `none` when the round budget runs out or when the
scan of the closure files throws. -/
def genDeps (env : Env) (basePath : Str) (targets : List Str) (fuel : Nat) : Option Str :=
  let st := scanFiles env (targetFiles env targets) ProvideMap_.new RequireMap_.new
  match extractClosureDependencies env st.2 fuel with
  | none => none
  | some closureFiles =>
    match scanFilesNullable env closureFiles ProvideMap_.new RequireMap_.new with
    | none => none
    | some _ => some (arrayJoin ['\n'] (genAddDependency env basePath st.1 st.2))

/-- The example environment with `pathMod.relative` cutting the base directory
and the separator. -/
def exEnvRel : Env :=
  { exEnv with relative := fun base p => p.drop (base.length + 1) }

/-- The example environment, relative paths as in `exEnvRel`, with a library
directory that holds no file. -/
def exEnvNoLibrary : Env :=
  { exEnvRel with
    relativeGlob := fun d => if d = "lib".toList then ["lib/app.js".toList] else [] }

/-- Provide index of the manifest example: `A.js` declares `ns.A`, `B.js`
declares `ns.B`. -/
def exManifestProvide : ProvideMap_ :=
  ProvideMap_.new.setAll
    [("ns.A".toList, "/work/A.js".toList), ("ns.B".toList, "/work/B.js".toList)]

/-- Require index of the manifest example: `A.js` requires `ns.B`. -/
def exManifestRequire : RequireMap_ :=
  RequireMap_.new.setAll [("/work/A.js".toList, "ns.B".toList)]

/-- The example environment with an application file that requires `goog.X`,
`goog.Y` and `goog.X` again. -/
def exEnvTwo : Env :=
  { exEnv with
    readFile := fun p =>
      if p = "/work/lib/app.js".toList then
        "goog.require(\x27goog.X\x27);\ngoog.require(\x27goog.Y\x27);\ngoog.require(\x27goog.X\x27);".toList
      else exEnv.readFile p }

/-- The example environment with an application file that requires `goog.X`
and `goog.W`; no library file provides `goog.W`. -/
def exEnvMissing : Env :=
  { exEnv with
    readFile := fun p =>
      if p = "/work/lib/app.js".toList then
        "goog.require(\x27goog.X\x27);\ngoog.require(\x27goog.W\x27);".toList
      else exEnv.readFile p }

/-- Application require index whose required names are the names of the final
working object of the `X`, `Y` example: `goog.X` and `goog.Y`. -/
def exAppAgain : RequireMap_ :=
  RequireMap_.new.setAll
    [("/again.js".toList, "goog.X".toList), ("/again.js".toList, "goog.Y".toList)]

/-- The own property names of `map_[path]` in a require index, in insertion
order. -/
def RequireMap_.names (r : RequireMap_) (path : Str) : List Str :=
  NameObj.names ((r.map_.get? path).getD [])

/-- The example environment with an application file that requires
`__proto__`, then `goog.X`, and provides `__proto__`. -/
def exEnvProto : Env :=
  { exEnv with
    readFile := fun p =>
      if p = "/work/lib/app.js".toList then
        "goog.require(\x27__proto__\x27);\ngoog.require(\x27goog.X\x27);\ngoog.provide(\x27__proto__\x27);".toList
      else exEnv.readFile p }

/-- Provide index of the second manifest example: `A.js` declares `ns.A`, then
`ns.A2`. -/
def exManifestProvideTwo : ProvideMap_ :=
  ProvideMap_.new.setAll
    [("ns.A".toList, "/work/A.js".toList), ("ns.A2".toList, "/work/A.js".toList)]

/-- Require index of the second manifest example: `A.js` requires `ns.B`,
`__proto__`, a name with a double quote in it, `7`, and `ns.B` again. -/
def exManifestRequireTwo : RequireMap_ :=
  RequireMap_.new.setAll
    [("/work/A.js".toList, "ns.B".toList), ("/work/A.js".toList, "__proto__".toList),
      ("/work/A.js".toList, "q\x22t".toList), ("/work/A.js".toList, "7".toList),
      ("/work/A.js".toList, "ns.B".toList)]

/-- A path that names no special property of an object.  The objects keyed by
paths (`reverse_`, the outer object of `RequireMap_`, the result of
`getAllRequires`) are written with `obj[path] = value` and tested with
`obj.hasOwnProperty(path)`; for every key other than `__proto__` and
`hasOwnProperty` these behave as a dictionary.  The program passes results of
`pathMod.resolve`, which are absolute paths. -/
abbrev PlainPath (path : Str) : Prop :=
  path ≠ protoName ∧ path ≠ "hasOwnProperty".toList

/-- Require index of the third manifest example: `A.js` is registered as
requiring `__proto__`. -/
def exManifestRequireProto : RequireMap_ :=
  RequireMap_.new.setAll [("/work/A.js".toList, "__proto__".toList)]

/-! ## Dictionary lemmas -/

theorem foldl_push {α β : Type} (f : α → β) (l : List α) (init : List β) :
    l.foldl (fun acc x => acc ++ [f x]) init = init ++ l.map f := by
  induction l generalizing init with
  | nil => simp
  | cons x xs ih => simp [ih]

theorem objectKeys_eq {α : Type} (o : NameObj α) :
    RequireMap_.objectKeys_ o = NameObj.forIn o := by
  have h := foldl_push (fun k : Str => k) (NameObj.forIn o) []
  simpa [RequireMap_.objectKeys_] using h

theorem countKeys_eq {α : Type} (o : NameObj α) :
    countKeys o = (NameObj.forIn o).length := by
  have h := foldl_push (fun k : Str => k) (NameObj.forIn o) []
  simp only [List.map_id', List.nil_append] at h
  simp [countKeys, h]

theorem closureFiles_eq (map : WorkMap) : closureFiles map = map.keys.map map.read := by
  simpa [closureFiles] using foldl_push map.read map.keys []

namespace Obj

theorem hasOwnProperty_iff {α : Type} (o : Obj α) (k : Str) :
    o.hasOwnProperty k = true ↔ k ∈ o.keys := by
  induction o with
  | nil => simp [hasOwnProperty, keys]
  | cons e rest ih =>
    simp only [hasOwnProperty, keys, List.any_cons, Bool.or_eq_true, beq_iff_eq,
      List.map_cons, List.mem_cons] at ih ⊢
    rw [ih]
    constructor
    · rintro (h | h)
      · exact Or.inl h.symm
      · exact Or.inr h
    · rintro (h | h)
      · exact Or.inl h.symm
      · exact Or.inr h

theorem get?_eq_none_iff {α : Type} (o : Obj α) (k : Str) :
    o.get? k = none ↔ k ∉ o.keys := by
  induction o with
  | nil => simp [get?, keys]
  | cons e rest ih =>
    obtain ⟨k', v⟩ := e
    show (if k' = k then some v else get? rest k) = none ↔ k ∉ k' :: keys rest
    rw [List.mem_cons]
    by_cases h : k' = k
    · rw [if_pos h]
      constructor
      · intro h0; cases h0
      · intro h0; exact absurd (Or.inl h.symm) h0
    · rw [if_neg h, ih]
      constructor
      · rintro h0 (h1 | h1)
        · exact h h1.symm
        · exact h0 h1
      · intro h0 h1
        exact h0 (Or.inr h1)

theorem mem_keys_of_get? {α : Type} {o : Obj α} {k : Str} {v : α}
    (h : o.get? k = some v) : k ∈ o.keys := by
  by_contra hk
  rw [← get?_eq_none_iff] at hk
  rw [hk] at h
  cases h

theorem get?_isSome_of_mem {α : Type} {o : Obj α} {k : Str} (h : k ∈ o.keys) :
    ∃ v, o.get? k = some v := by
  cases hg : o.get? k with
  | none => exact absurd h ((get?_eq_none_iff o k).1 hg)
  | some v => exact ⟨v, rfl⟩

theorem keys_set {α : Type} (o : Obj α) (k : Str) (v : α) :
    (o.set k v).keys = if k ∈ o.keys then o.keys else o.keys ++ [k] := by
  induction o with
  | nil => simp [set, keys]
  | cons e rest ih =>
    obtain ⟨k', v'⟩ := e
    show keys (if k' = k then (k, v) :: rest else (k', v') :: set rest k v)
      = if k ∈ k' :: keys rest then k' :: keys rest else (k' :: keys rest) ++ [k]
    by_cases h : k' = k
    · subst h
      rw [if_pos rfl, if_pos (List.mem_cons_self _ _)]
      rfl
    · have h' : ¬ k = k' := fun e => h e.symm
      rw [if_neg h]
      show k' :: keys (set rest k v) = _
      rw [ih]
      by_cases hm : k ∈ keys rest
      · rw [if_pos hm, if_pos (List.mem_cons_of_mem _ hm)]
      · have hm' : k ∉ k' :: keys rest := by
          rw [List.mem_cons]
          rintro (h1 | h1)
          · exact h' h1
          · exact hm h1
        rw [if_neg hm, if_neg hm']
        rfl

theorem mem_keys_set {α : Type} (o : Obj α) (k : Str) (v : α) (k' : Str) :
    k' ∈ (o.set k v).keys ↔ k' ∈ o.keys ∨ k' = k := by
  rw [keys_set]
  split
  · constructor
    · exact Or.inl
    · rintro (h | h)
      · exact h
      · subst h; assumption
  · simp

theorem get?_set {α : Type} (o : Obj α) (k : Str) (v : α) (k' : Str) :
    (o.set k v).get? k' = if k = k' then some v else o.get? k' := by
  induction o with
  | nil => simp [set, get?]
  | cons e rest ih =>
    obtain ⟨k1, v1⟩ := e
    by_cases h : k1 = k
    · subst h
      by_cases h2 : k1 = k'
      · simp [set, get?, h2]
      · simp [set, get?, h2]
    · by_cases h2 : k1 = k'
      · subst h2
        have h' : ¬ k = k1 := fun e => h e.symm
        simp [set, get?, h, h']
      · simp [set, get?, h, h2, ih]

theorem nodup_keys_set {α : Type} (o : Obj α) (k : Str) (v : α) (h : o.keys.Nodup) :
    (o.set k v).keys.Nodup := by
  rw [keys_set]
  split
  · exact h
  · rename_i hk
    exact List.Nodup.append h (List.nodup_singleton k) (by simpa using hk)

theorem set_eq_self {α : Type} (o : Obj α) (k : Str) (v : α) (h : o.get? k = some v) :
    o.set k v = o := by
  induction o with
  | nil => simp [get?] at h
  | cons e rest ih =>
    obtain ⟨k1, v1⟩ := e
    by_cases h1 : k1 = k
    · subst h1
      simp only [get?, if_true, Option.some.injEq] at h
      simp [set, h]
    · simp only [get?, h1, if_false] at h
      simp [set, h1, ih h]

theorem length_le_set {α : Type} (o : Obj α) (k : Str) (v : α) :
    o.keys.length ≤ (o.set k v).keys.length := by
  rw [keys_set]
  split <;> simp

end Obj

/-! ## Objects keyed by module names: enumeration and writes -/

theorem enumOrder_perm (l : List Str) : (enumOrder l).Perm l := by
  unfold enumOrder
  have h1 := List.perm_insertionSort
    (fun a b : Str => (arrayIndex? a).getD 0 ≤ (arrayIndex? b).getD 0)
    (l.filter (fun n => (arrayIndex? n).isSome))
  have hfun : (fun n : Str => (arrayIndex? n).isNone)
      = (fun n : Str => !(arrayIndex? n).isSome) := by
    funext n
    cases arrayIndex? n <;> rfl
  rw [hfun]
  exact (h1.append_right _).trans (List.filter_append_perm _ l)

theorem mem_enumOrder (l : List Str) (x : Str) : x ∈ enumOrder l ↔ x ∈ l :=
  (enumOrder_perm l).mem_iff

theorem nodup_enumOrder (l : List Str) : (enumOrder l).Nodup ↔ l.Nodup :=
  (enumOrder_perm l).nodup_iff

theorem length_enumOrder (l : List Str) : (enumOrder l).length = l.length :=
  (enumOrder_perm l).length_eq

theorem enumOrder_eq_self (l : List Str) (h : ∀ n ∈ l, arrayIndex? n = none) :
    enumOrder l = l := by
  unfold enumOrder
  have h1 : l.filter (fun n => (arrayIndex? n).isSome) = [] := by
    rw [List.filter_eq_nil_iff]
    intro n hn
    rw [h n hn]
    simp
  have h2 : l.filter (fun n => (arrayIndex? n).isNone) = l := by
    rw [List.filter_eq_self]
    intro n hn
    rw [h n hn]
    rfl
  rw [h1, h2]
  rfl

namespace NameObj

theorem mem_names {α : Type} (o : NameObj α) (k : Str) :
    k ∈ names o ↔ k ∈ Obj.keys o ∧ k ≠ protoName := by
  unfold names
  rw [List.mem_filter]
  simp

theorem mem_forIn {α : Type} (o : NameObj α) (k : Str) :
    k ∈ forIn o ↔ k ∈ Obj.keys o ∧ k ≠ protoName := by
  unfold forIn
  rw [mem_enumOrder, mem_names]

theorem mem_forIn_iff_names {α : Type} (o : NameObj α) (k : Str) :
    k ∈ forIn o ↔ k ∈ names o := by
  unfold forIn
  exact mem_enumOrder _ k

theorem names_set {α : Type} (o : NameObj α) (k : Str) (v : α) :
    names (set o k v) = if k = protoName ∨ k ∈ names o then names o else names o ++ [k] := by
  unfold set
  by_cases hk : k = protoName
  · rw [if_pos hk, if_pos (Or.inl hk)]
  · rw [if_neg hk]
    unfold names
    rw [Obj.keys_set]
    by_cases hm : k ∈ Obj.keys o
    · have hm' : k ∈ (Obj.keys o).filter (fun k => k ≠ protoName) :=
        List.mem_filter.2 ⟨hm, by simpa using hk⟩
      rw [if_pos hm, if_pos (Or.inr hm')]
    · have hm' : ¬ (k = protoName ∨ k ∈ (Obj.keys o).filter (fun k => k ≠ protoName)) := by
        rintro (h | h)
        · exact hk h
        · exact hm (List.mem_filter.1 h).1
      rw [if_neg hm, if_neg hm', List.filter_append]
      have hs : [k].filter (fun k => k ≠ protoName) = [k] := by
        rw [List.filter_eq_self]
        intro x hx
        rw [List.mem_singleton] at hx
        subst hx
        simpa using hk
      rw [hs]

theorem mem_names_set {α : Type} (o : NameObj α) (k : Str) (v : α) (k' : Str) :
    k' ∈ names (set o k v) ↔ k' ∈ names o ∨ (k' = k ∧ k ≠ protoName) := by
  rw [names_set]
  by_cases h : k = protoName ∨ k ∈ names o
  · rw [if_pos h]
    constructor
    · exact Or.inl
    · rintro (h1 | ⟨h1, h2⟩)
      · exact h1
      · subst h1
        rcases h with h | h
        · exact absurd h h2
        · exact h
  · rw [if_neg h, List.mem_append, List.mem_singleton]
    constructor
    · rintro (h1 | h1)
      · exact Or.inl h1
      · exact Or.inr ⟨h1, fun hp => h (Or.inl hp)⟩
    · rintro (h1 | ⟨h1, _⟩)
      · exact Or.inl h1
      · exact Or.inr h1

theorem nodup_names_set {α : Type} (o : NameObj α) (k : Str) (v : α) (h : (names o).Nodup) :
    (names (set o k v)).Nodup := by
  rw [names_set]
  by_cases hk : k = protoName ∨ k ∈ names o
  · rw [if_pos hk]
    exact h
  · rw [if_neg hk]
    exact List.Nodup.append h (List.nodup_singleton k)
      (by simpa using fun hm => hk (Or.inr hm))

theorem length_names_le_set {α : Type} (o : NameObj α) (k : Str) (v : α) :
    (names o).length ≤ (names (set o k v)).length := by
  rw [names_set]
  split <;> simp

theorem get?_nset {α : Type} (o : NameObj α) (k : Str) (v : α) (k' : Str) :
    Obj.get? (set o k v) k' = if k = k' ∧ k ≠ protoName then some v else Obj.get? o k' := by
  unfold set
  by_cases hk : k = protoName
  · rw [if_pos hk, if_neg (fun h => h.2 hk)]
  · rw [if_neg hk, Obj.get?_set]
    by_cases h : k = k'
    · rw [if_pos h, if_pos ⟨h, hk⟩]
    · rw [if_neg h, if_neg (fun h' => h h'.1)]

theorem nset_eq_self {α : Type} (o : NameObj α) (k : Str) (v : α)
    (h : Obj.get? o k = some v) : set o k v = o := by
  unfold set
  by_cases hk : k = protoName
  · rw [if_pos hk]
  · rw [if_neg hk]
    exact Obj.set_eq_self o k v h

theorem proto_not_mem_set {α : Type} (o : NameObj α) (k : Str) (v : α)
    (h : protoName ∉ Obj.keys o) : protoName ∉ Obj.keys (set o k v) := by
  unfold set
  by_cases hk : k = protoName
  · rw [if_pos hk]
    exact h
  · rw [if_neg hk]
    intro hm
    rcases (Obj.mem_keys_set o k v protoName).1 hm with h1 | h1
    · exact h h1
    · exact hk h1.symm

end NameObj

/-! ## Writing a list of names into a dictionary -/

theorem mem_keys_foldl_set {α : Type} (f : Str → α) (ks : List Str) (init : Obj α)
    (k : Str) :
    k ∈ (ks.foldl (fun o n => o.set n (f n)) init).keys ↔ k ∈ init.keys ∨ k ∈ ks := by
  induction ks generalizing init with
  | nil => simp
  | cons n ns ih =>
    rw [List.foldl_cons, ih, Obj.mem_keys_set, List.mem_cons]
    tauto

theorem nodup_keys_foldl_set {α : Type} (f : Str → α) (ks : List Str) (init : Obj α)
    (h : init.keys.Nodup) : (ks.foldl (fun o n => o.set n (f n)) init).keys.Nodup := by
  induction ks generalizing init with
  | nil => exact h
  | cons n ns ih =>
    rw [List.foldl_cons]
    exact ih _ (Obj.nodup_keys_set init n (f n) h)

theorem get?_foldl_set {α : Type} (f : Str → α) (ks : List Str) (init : Obj α) (k : Str) :
    (ks.foldl (fun o n => o.set n (f n)) init).get? k
      = if k ∈ ks then some (f k) else init.get? k := by
  induction ks generalizing init with
  | nil => simp
  | cons n ns ih =>
    rw [List.foldl_cons, ih, Obj.get?_set]
    by_cases h1 : k ∈ ns
    · rw [if_pos h1, if_pos (List.mem_cons_of_mem _ h1)]
    · rw [if_neg h1]
      by_cases h2 : n = k
      · subst h2
        rw [if_pos rfl, if_pos (List.mem_cons_self _ _)]
      · have h3 : k ∉ n :: ns := by
          rw [List.mem_cons]
          rintro (h | h)
          · exact h2 h.symm
          · exact h1 h
        rw [if_neg h2, if_neg h3]

theorem length_keys_le_foldl_set {α : Type} (f : Str → α) (ks : List Str) (init : Obj α) :
    init.keys.length ≤ (ks.foldl (fun o n => o.set n (f n)) init).keys.length := by
  induction ks generalizing init with
  | nil => exact Nat.le_refl _
  | cons n ns ih =>
    rw [List.foldl_cons]
    exact Nat.le_trans (Obj.length_le_set init n (f n)) (ih _)

theorem foldl_set_eq_self {α : Type} (f : Str → α) (ks : List Str) (init : Obj α)
    (h : ∀ k ∈ ks, init.get? k = some (f k)) :
    ks.foldl (fun o n => o.set n (f n)) init = init := by
  induction ks with
  | nil => rfl
  | cons n ns ih =>
    rw [List.foldl_cons, Obj.set_eq_self init n (f n) (h n (List.mem_cons_self _ _))]
    exact ih (fun k hk => h k (List.mem_cons_of_mem _ hk))

/-! ## Writing a list of module names into an object -/

theorem mem_names_foldl_set {α : Type} (f : Str → α) (ks : List Str) (init : NameObj α)
    (k : Str) :
    k ∈ NameObj.names (ks.foldl (fun o n => NameObj.set o n (f n)) init)
      ↔ k ∈ NameObj.names init ∨ (k ∈ ks ∧ k ≠ protoName) := by
  induction ks generalizing init with
  | nil => simp
  | cons n ns ih =>
    rw [List.foldl_cons, ih, NameObj.mem_names_set, List.mem_cons]
    constructor
    · rintro ((h | ⟨h1, h2⟩) | ⟨h1, h2⟩)
      · exact Or.inl h
      · exact Or.inr ⟨Or.inl h1, h1 ▸ h2⟩
      · exact Or.inr ⟨Or.inr h1, h2⟩
    · rintro (h | ⟨h1 | h1, h2⟩)
      · exact Or.inl (Or.inl h)
      · exact Or.inl (Or.inr ⟨h1, h1 ▸ h2⟩)
      · exact Or.inr ⟨h1, h2⟩

theorem nodup_names_foldl_set {α : Type} (f : Str → α) (ks : List Str) (init : NameObj α)
    (h : (NameObj.names init).Nodup) :
    (NameObj.names (ks.foldl (fun o n => NameObj.set o n (f n)) init)).Nodup := by
  induction ks generalizing init with
  | nil => exact h
  | cons n ns ih =>
    rw [List.foldl_cons]
    exact ih _ (NameObj.nodup_names_set init n (f n) h)

theorem get?_foldl_nset {α : Type} (f : Str → α) (ks : List Str) (init : NameObj α)
    (k : Str) :
    Obj.get? (ks.foldl (fun o n => NameObj.set o n (f n)) init) k
      = if k ∈ ks ∧ k ≠ protoName then some (f k) else Obj.get? init k := by
  induction ks generalizing init with
  | nil => simp
  | cons n ns ih =>
    rw [List.foldl_cons, ih, NameObj.get?_nset]
    by_cases h1 : k ∈ ns ∧ k ≠ protoName
    · rw [if_pos h1, if_pos ⟨List.mem_cons_of_mem _ h1.1, h1.2⟩]
    · rw [if_neg h1]
      by_cases h2 : n = k ∧ n ≠ protoName
      · obtain ⟨h2a, h2b⟩ := h2
        subst h2a
        rw [if_pos ⟨rfl, h2b⟩, if_pos ⟨List.mem_cons_self _ _, h2b⟩]
      · have h3 : ¬ (k ∈ n :: ns ∧ k ≠ protoName) := by
          rintro ⟨hm, hp⟩
          rcases List.mem_cons.1 hm with h | h
          · exact h2 ⟨h.symm, h ▸ hp⟩
          · exact h1 ⟨h, hp⟩
        rw [if_neg h2, if_neg h3]

theorem length_names_le_foldl_set {α : Type} (f : Str → α) (ks : List Str)
    (init : NameObj α) :
    (NameObj.names init).length
      ≤ (NameObj.names (ks.foldl (fun o n => NameObj.set o n (f n)) init)).length := by
  induction ks generalizing init with
  | nil => exact Nat.le_refl _
  | cons n ns ih =>
    rw [List.foldl_cons]
    exact Nat.le_trans (NameObj.length_names_le_set init n (f n)) (ih _)

theorem foldl_nset_eq_self {α : Type} (f : Str → α) (ks : List Str) (init : NameObj α)
    (h : ∀ k ∈ ks, Obj.get? init k = some (f k)) :
    ks.foldl (fun o n => NameObj.set o n (f n)) init = init := by
  induction ks with
  | nil => rfl
  | cons n ns ih =>
    rw [List.foldl_cons, NameObj.nset_eq_self init n (f n) (h n (List.mem_cons_self _ _))]
    exact ih (fun k hk => h k (List.mem_cons_of_mem _ hk))

theorem proto_not_mem_foldl_set {α : Type} (f : Str → α) (ks : List Str) (init : NameObj α)
    (h : protoName ∉ Obj.keys init) :
    protoName ∉ Obj.keys (ks.foldl (fun o n => NameObj.set o n (f n)) init) := by
  induction ks generalizing init with
  | nil => exact h
  | cons n ns ih =>
    rw [List.foldl_cons]
    exact ih _ (NameObj.proto_not_mem_set init n (f n) h)

/-! ## The require index -/

theorem RequireMap_.get_eq (r : RequireMap_) (path : Str) :
    r.get path = NameObj.forIn ((r.map_.get? path).getD []) := by
  unfold RequireMap_.get
  rw [objectKeys_eq]
  by_cases h : r.map_.hasOwnProperty path = true
  · rw [if_pos h]
  · rw [if_neg h]
    have hk : path ∉ r.map_.keys := fun hm => h ((Obj.hasOwnProperty_iff _ _).2 hm)
    rw [(Obj.get?_eq_none_iff _ _).2 hk]
    rfl

theorem RequireMap_.mem_keys_of_mem_get {r : RequireMap_} {path n : Str}
    (h : n ∈ r.get path) : path ∈ r.map_.keys := by
  by_contra hk
  rw [RequireMap_.get_eq, (Obj.get?_eq_none_iff _ _).2 hk] at h
  have h0 : NameObj.forIn ((none : Option (NameObj Bool)).getD []) = [] := rfl
  rw [h0] at h
  cases h

theorem RequireMap_.ne_proto_of_mem_get {r : RequireMap_} {path n : Str}
    (h : n ∈ r.get path) : n ≠ protoName := by
  rw [RequireMap_.get_eq] at h
  exact ((NameObj.mem_forIn _ n).1 h).2

theorem mem_names_foldl_foldl_set (g : Str → List Str) (ps : List Str) (init : NameObj Bool)
    (k : Str) :
    k ∈ NameObj.names
        (ps.foldl (fun res p => (g p).foldl (fun res key => NameObj.set res key true) res)
          init)
      ↔ k ∈ NameObj.names init ∨ ∃ p ∈ ps, k ∈ g p ∧ k ≠ protoName := by
  induction ps generalizing init with
  | nil => simp
  | cons p ps ih =>
    rw [List.foldl_cons, ih, mem_names_foldl_set (fun _ => true)]
    simp only [List.mem_cons, exists_eq_or_imp]
    tauto

theorem nodup_names_foldl_foldl_set (g : Str → List Str) (ps : List Str)
    (init : NameObj Bool) (h : (NameObj.names init).Nodup) :
    (NameObj.names
      (ps.foldl (fun res p => (g p).foldl (fun res key => NameObj.set res key true) res)
        init)).Nodup := by
  induction ps generalizing init with
  | nil => exact h
  | cons p ps ih =>
    rw [List.foldl_cons]
    exact ih _ (nodup_names_foldl_set (fun _ => true) (g p) init h)

theorem RequireMap_.mem_getAllDependencies (r : RequireMap_) (n : Str) :
    n ∈ r.getAllDependencies ↔ ∃ path, n ∈ r.get path := by
  unfold RequireMap_.getAllDependencies
  rw [objectKeys_eq, NameObj.mem_forIn_iff_names,
    mem_names_foldl_foldl_set (fun p => NameObj.forIn ((r.map_.get? p).getD []))]
  constructor
  · rintro (h | ⟨p, _, hn, _⟩)
    · simp [NameObj.names, Obj.keys] at h
    · exact ⟨p, by rw [RequireMap_.get_eq]; exact hn⟩
  · rintro ⟨p, hn⟩
    refine Or.inr ⟨p, RequireMap_.mem_keys_of_mem_get hn, ?_,
      RequireMap_.ne_proto_of_mem_get hn⟩
    rw [RequireMap_.get_eq] at hn
    exact hn

theorem RequireMap_.nodup_getAllDependencies (r : RequireMap_) :
    r.getAllDependencies.Nodup := by
  unfold RequireMap_.getAllDependencies
  rw [objectKeys_eq]
  unfold NameObj.forIn
  rw [nodup_enumOrder]
  exact nodup_names_foldl_foldl_set _ _ _ List.nodup_nil

/-! ## The working object -/

theorem addRequires_eq (cp : ProvideMap_) (m : WorkMap) (ns : List Str) :
    addRequires cp m ns = ns.foldl (fun o n => NameObj.set o n (cp.get n)) m := rfl

theorem WorkMap.mem_keys (m : WorkMap) (k : Str) : k ∈ m.keys ↔ k ∈ NameObj.names m :=
  NameObj.mem_forIn_iff_names m k

theorem WorkMap.nodup_keys (m : WorkMap) : m.keys.Nodup ↔ (NameObj.names m).Nodup :=
  nodup_enumOrder _

theorem WorkMap.length_keys (m : WorkMap) : m.keys.length = (NameObj.names m).length :=
  length_enumOrder _

theorem WorkMap.ne_proto_of_mem_keys {m : WorkMap} {k : Str} (h : k ∈ m.keys) :
    k ≠ protoName :=
  ((NameObj.mem_forIn m k).1 h).2

theorem mem_keys_addRequires (cp : ProvideMap_) (m : WorkMap) (ns : List Str) (k : Str) :
    k ∈ (addRequires cp m ns).keys ↔ k ∈ m.keys ∨ (k ∈ ns ∧ k ≠ protoName) := by
  rw [WorkMap.mem_keys, WorkMap.mem_keys, addRequires_eq]
  exact mem_names_foldl_set cp.get ns m k

theorem WorkInv_addRequires (cp : ProvideMap_) (m : WorkMap) (ns : List Str)
    (h : WorkInv cp m) : WorkInv cp (addRequires cp m ns) := by
  intro k hk
  rw [addRequires_eq, get?_foldl_nset]
  by_cases hn : k ∈ ns ∧ k ≠ protoName
  · rw [if_pos hn]
  · rw [if_neg hn]
    rcases (mem_keys_addRequires cp m ns k).1 hk with h1 | h1
    · exact h k h1
    · exact absurd h1 hn

theorem addRequires_eq_self (cp : ProvideMap_) (m : WorkMap) (ns : List Str)
    (h : WorkInv cp m) (hns : ∀ n ∈ ns, n ∈ m.keys) : addRequires cp m ns = m := by
  rw [addRequires_eq]
  exact foldl_nset_eq_self cp.get ns m (fun k hk => h k (hns k hk))

theorem addRequires_noProto (cp : ProvideMap_) (m : WorkMap) (ns : List Str)
    (h : protoName ∉ Obj.keys m) : protoName ∉ Obj.keys (addRequires cp m ns) := by
  rw [addRequires_eq]
  exact proto_not_mem_foldl_set cp.get ns m h

theorem WorkMap.read_of_inv {cp : ProvideMap_} {m : WorkMap} (h : WorkInv cp m) {k : Str}
    (hk : k ∈ m.keys) : m.read k = cp.get k := by
  unfold WorkMap.read
  rw [h k hk]
  rfl

theorem round_spec (cp : ProvideMap_) (cr : RequireMap_) (ks : List Str) (m : WorkMap)
    (hinv : WorkInv cp m) (hks : ∀ k ∈ ks, k ∈ m.keys) :
    WorkInv cp (ks.foldl
        (fun map key => addRequires cp map (cr.get (toPropertyKey (map.read key)))) m) ∧
      (∀ k, k ∈ (ks.foldl
          (fun map key => addRequires cp map (cr.get (toPropertyKey (map.read key))))
          m).keys ↔ k ∈ m.keys ∨ ∃ key ∈ ks, k ∈ requiresOf cp cr key) ∧
      (m.keys.Nodup → (ks.foldl
          (fun map key => addRequires cp map (cr.get (toPropertyKey (map.read key))))
          m).keys.Nodup) ∧
      m.keys.length ≤ (ks.foldl
          (fun map key => addRequires cp map (cr.get (toPropertyKey (map.read key))))
          m).keys.length := by
  induction ks generalizing m with
  | nil =>
    refine ⟨hinv, ?_, fun h => h, Nat.le_refl _⟩
    intro k
    simp
  | cons key rest ih =>
    rw [List.foldl_cons]
    have hkey : key ∈ m.keys := hks key (List.mem_cons_self _ _)
    have hread : cr.get (toPropertyKey (m.read key)) = requiresOf cp cr key := by
      rw [WorkMap.read_of_inv hinv hkey]
      rfl
    rw [hread]
    have hinv1 := WorkInv_addRequires cp m (requiresOf cp cr key) hinv
    have hks1 : ∀ k ∈ rest, k ∈ (addRequires cp m (requiresOf cp cr key)).keys := by
      intro k hk
      exact (mem_keys_addRequires cp m _ k).2 (Or.inl (hks k (List.mem_cons_of_mem _ hk)))
    obtain ⟨h1, h2, h3, h4⟩ := ih (addRequires cp m (requiresOf cp cr key)) hinv1 hks1
    refine ⟨h1, ?_, ?_, ?_⟩
    · intro k
      rw [h2 k, mem_keys_addRequires]
      constructor
      · rintro ((h | ⟨h, _⟩) | ⟨key', hk', hn⟩)
        · exact Or.inl h
        · exact Or.inr ⟨key, List.mem_cons_self _ _, h⟩
        · exact Or.inr ⟨key', List.mem_cons_of_mem _ hk', hn⟩
      · rintro (h | ⟨key', hk', hn⟩)
        · exact Or.inl (Or.inl h)
        · rcases List.mem_cons.1 hk' with e | e
          · subst e
            exact Or.inl (Or.inr ⟨hn, RequireMap_.ne_proto_of_mem_get hn⟩)
          · exact Or.inr ⟨key', e, hn⟩
    · intro hnd
      apply h3
      rw [WorkMap.nodup_keys] at hnd ⊢
      rw [addRequires_eq]
      exact nodup_names_foldl_set cp.get _ m hnd
    · refine Nat.le_trans ?_ h4
      rw [WorkMap.length_keys, WorkMap.length_keys, addRequires_eq]
      exact length_names_le_foldl_set cp.get _ m

/-! ## One round and the loop -/

theorem expandRound_spec (cp : ProvideMap_) (cr : RequireMap_) (m : WorkMap)
    (hinv : WorkInv cp m) :
    WorkInv cp (expandRound cp cr m) ∧
      (∀ k, k ∈ (expandRound cp cr m).keys ↔
        k ∈ m.keys ∨ ∃ key ∈ m.keys, k ∈ requiresOf cp cr key) ∧
      (m.keys.Nodup → (expandRound cp cr m).keys.Nodup) ∧
      m.keys.length ≤ (expandRound cp cr m).keys.length :=
  round_spec cp cr m.keys m hinv (fun _ h => h)

theorem countKeys_le_expandRound (cp : ProvideMap_) (cr : RequireMap_) (m : WorkMap)
    (hinv : WorkInv cp m) : countKeys m ≤ countKeys (expandRound cp cr m) := by
  rw [countKeys_eq, countKeys_eq]
  exact (expandRound_spec cp cr m hinv).2.2.2

theorem expandRound_good (cp : ProvideMap_) (cr : RequireMap_) (seeds : List Str)
    (m : WorkMap) (h : Good cp cr seeds m) : Good cp cr seeds (expandRound cp cr m) := by
  obtain ⟨hinv, hnd, hseed, hreach⟩ := h
  obtain ⟨h1, h2, h3, _⟩ := expandRound_spec cp cr m hinv
  refine ⟨h1, h3 hnd, fun s hs => (h2 s).2 (Or.inl (hseed s hs)), ?_⟩
  intro k hk
  rcases (h2 k).1 hk with hk | ⟨key, hkey, hn⟩
  · exact hreach k hk
  · exact ReachableKey.hop (hreach key hkey) hn

theorem keys_expandRound_of_count (cp : ProvideMap_) (cr : RequireMap_) (m : WorkMap)
    (hinv : WorkInv cp m) (hnd : m.keys.Nodup)
    (hc : countKeys (expandRound cp cr m) = countKeys m) (k : Str) :
    k ∈ (expandRound cp cr m).keys ↔ k ∈ m.keys := by
  obtain ⟨_, h2, _, _⟩ := expandRound_spec cp cr m hinv
  rw [countKeys_eq, countKeys_eq] at hc
  have hsub : m.keys ⊆ (expandRound cp cr m).keys := fun x hx => (h2 x).2 (Or.inl hx)
  have hperm : m.keys.Perm (expandRound cp cr m).keys :=
    (List.subperm_of_subset hnd hsub).perm_of_length_le (Nat.le_of_eq hc)
  exact (hperm.mem_iff).symm

theorem closed_of_count (cp : ProvideMap_) (cr : RequireMap_) (m : WorkMap)
    (hinv : WorkInv cp m) (hnd : m.keys.Nodup)
    (hc : countKeys (expandRound cp cr m) = countKeys m) :
    Closed cp cr m ∧ Closed cp cr (expandRound cp cr m) := by
  obtain ⟨_, h2, _, _⟩ := expandRound_spec cp cr m hinv
  have hk := keys_expandRound_of_count cp cr m hinv hnd hc
  have hcl : Closed cp cr m := fun key hkey n hn => (hk n).1 ((h2 n).2 (Or.inr ⟨key, hkey, hn⟩))
  refine ⟨hcl, ?_⟩
  intro key hkey n hn
  exact (hk n).2 (hcl key ((hk key).1 hkey) n hn)

theorem round_eq_self (cp : ProvideMap_) (cr : RequireMap_) (ks : List Str) (m : WorkMap)
    (hinv : WorkInv cp m) (hks : ∀ k ∈ ks, k ∈ m.keys)
    (hcl : ∀ key ∈ ks, ∀ n ∈ requiresOf cp cr key, n ∈ m.keys) :
    ks.foldl (fun map key => addRequires cp map (cr.get (toPropertyKey (map.read key)))) m
      = m := by
  induction ks with
  | nil => rfl
  | cons key rest ih =>
    rw [List.foldl_cons]
    have hkey : key ∈ m.keys := hks key (List.mem_cons_self _ _)
    have hread : cr.get (toPropertyKey (m.read key)) = requiresOf cp cr key := by
      rw [WorkMap.read_of_inv hinv hkey]
      rfl
    rw [hread, addRequires_eq_self cp m _ hinv (hcl key (List.mem_cons_self _ _))]
    exact ih (fun k hk => hks k (List.mem_cons_of_mem _ hk))
      (fun k hk => hcl k (List.mem_cons_of_mem _ hk))

theorem expandRound_eq_self (cp : ProvideMap_) (cr : RequireMap_) (m : WorkMap)
    (hinv : WorkInv cp m) (hcl : Closed cp cr m) : expandRound cp cr m = m :=
  round_eq_self cp cr m.keys m hinv (fun _ h => h) hcl

theorem expandLoop_spec (cp : ProvideMap_) (cr : RequireMap_) (seeds : List Str) :
    ∀ (fuel : Nat) (m r : WorkMap), Good cp cr seeds m → expandLoop cp cr fuel m = some r →
      Good cp cr seeds r ∧ Closed cp cr r := by
  intro fuel
  induction fuel with
  | zero =>
    intro m r _ h
    simp [expandLoop] at h
  | succ fuel ih =>
    intro m r hg h
    by_cases hc : countKeys (expandRound cp cr m) = countKeys m
    · simp only [expandLoop, hc, bne_self_eq_false, Bool.false_eq_true, if_false,
        Option.some.injEq] at h
      subst h
      exact ⟨expandRound_good cp cr seeds m hg, (closed_of_count cp cr m hg.1 hg.2.1 hc).2⟩
    · have hb : (countKeys (expandRound cp cr m) != countKeys m) = true := by
        simpa using hc
      simp only [expandLoop, hb, if_true] at h
      exact ih _ r (expandRound_good cp cr seeds m hg) h

theorem reachableKey_mem (cp : ProvideMap_) (cr : RequireMap_) (seeds : List Str) (k : Str)
    (h : ReachableKey cp cr seeds k) : k ∈ seeds ++ cr.getAllDependencies := by
  cases h with
  | seed hs => exact List.mem_append_left _ hs
  | hop _ hn =>
    exact List.mem_append_right _ ((RequireMap_.mem_getAllDependencies cr k).2 ⟨_, hn⟩)

theorem good_length_le (cp : ProvideMap_) (cr : RequireMap_) (seeds : List Str) (m : WorkMap)
    (h : Good cp cr seeds m) :
    countKeys m ≤ seeds.length + cr.getAllDependencies.length := by
  rw [countKeys_eq, ← List.length_append]
  exact (List.subperm_of_subset h.2.1
    (fun k hk => reachableKey_mem cp cr seeds k (h.2.2.2 k hk))).length_le

theorem expandLoop_terminates (cp : ProvideMap_) (cr : RequireMap_) (seeds : List Str) :
    ∀ (fuel : Nat) (m : WorkMap), Good cp cr seeds m →
      seeds.length + cr.getAllDependencies.length - countKeys m < fuel →
      ∃ r, expandLoop cp cr fuel m = some r := by
  intro fuel
  induction fuel with
  | zero =>
    intro m _ h
    exact absurd h (Nat.not_lt_zero _)
  | succ fuel ih =>
    intro m hg hlt
    by_cases hc : countKeys (expandRound cp cr m) = countKeys m
    · exact ⟨expandRound cp cr m, by simp [expandLoop, hc]⟩
    · have hb : (countKeys (expandRound cp cr m) != countKeys m) = true := by
        simpa using hc
      have hg1 := expandRound_good cp cr seeds m hg
      have hle := countKeys_le_expandRound cp cr m hg.1
      have hB := good_length_le cp cr seeds _ hg1
      obtain ⟨r, hr⟩ := ih (expandRound cp cr m) hg1 (by omega)
      exact ⟨r, by simp only [expandLoop, hb, if_true]; exact hr⟩

/-! ## The closure of the seeds -/

theorem closureDeps_ne_proto (codeRequire : RequireMap_) (s : Str)
    (h : s ∈ closureDeps codeRequire) : s ≠ protoName := by
  unfold closureDeps at h
  obtain ⟨path, hp⟩ :=
    (RequireMap_.mem_getAllDependencies codeRequire s).1 (List.mem_filter.1 h).1
  exact RequireMap_.ne_proto_of_mem_get hp

theorem WorkMap.keys_nil : WorkMap.keys ([] : WorkMap) = [] := rfl

theorem seedMap_good (cp : ProvideMap_) (cr codeRequire : RequireMap_) :
    Good cp cr (closureDeps codeRequire) (seedMap cp codeRequire) := by
  have hmem := mem_keys_addRequires cp [] (closureDeps codeRequire)
  have hnil : ∀ k, k ∉ WorkMap.keys ([] : WorkMap) := by
    intro k hk
    rw [WorkMap.keys_nil] at hk
    cases hk
  refine ⟨WorkInv_addRequires cp [] _ (fun k hk => absurd hk (hnil k)), ?_,
    fun s hs => (hmem s).2 (Or.inr ⟨hs, closureDeps_ne_proto codeRequire s hs⟩), ?_⟩
  · unfold seedMap
    rw [WorkMap.nodup_keys, addRequires_eq]
    exact nodup_names_foldl_set cp.get _ [] List.nodup_nil
  · intro k hk
    rcases (hmem k).1 hk with h | h
    · exact absurd h (hnil k)
    · exact ReachableKey.seed h.1

theorem expandRound_noProto (cp : ProvideMap_) (cr : RequireMap_) (ks : List Str)
    (m : WorkMap) (h : protoName ∉ Obj.keys m) :
    protoName ∉ Obj.keys (ks.foldl
      (fun (map : WorkMap) key =>
        addRequires cp map (cr.get (toPropertyKey (map.read key)))) m) := by
  induction ks generalizing m with
  | nil => exact h
  | cons key rest ih =>
    rw [List.foldl_cons]
    exact ih _ (addRequires_noProto cp m _ h)

theorem expandLoop_noProto (cp : ProvideMap_) (cr : RequireMap_) :
    ∀ (fuel : Nat) (m r : WorkMap), protoName ∉ Obj.keys m →
      expandLoop cp cr fuel m = some r → protoName ∉ Obj.keys r := by
  intro fuel
  induction fuel with
  | zero =>
    intro m r _ h
    simp [expandLoop] at h
  | succ fuel ih =>
    intro m r hm h
    have hround : protoName ∉ Obj.keys (expandRound cp cr m) :=
      expandRound_noProto cp cr (WorkMap.keys m) m hm
    by_cases hc : countKeys (expandRound cp cr m) = countKeys m
    · simp only [expandLoop, hc, bne_self_eq_false, Bool.false_eq_true, if_false,
        Option.some.injEq] at h
      subst h
      exact hround
    · have hb : (countKeys (expandRound cp cr m) != countKeys m) = true := by
        simpa using hc
      simp only [expandLoop, hb, if_true] at h
      exact ih _ r hround h

theorem closureMap_noProto (cp : ProvideMap_) (cr codeRequire : RequireMap_) (fuel : Nat)
    (map : WorkMap) (h : closureMap cp cr codeRequire fuel = some map) :
    protoName ∉ Obj.keys map := by
  refine expandLoop_noProto cp cr fuel (seedMap cp codeRequire) map ?_ h
  exact addRequires_noProto cp [] _ (by simp [Obj.keys])

theorem closureMap_result (cp : ProvideMap_) (cr codeRequire : RequireMap_) (fuel : Nat)
    (hfuel : roundBound cr codeRequire < fuel) :
    ∃ map, closureMap cp cr codeRequire fuel = some map ∧
      Good cp cr (closureDeps codeRequire) map ∧ Closed cp cr map := by
  have hg := seedMap_good cp cr codeRequire
  obtain ⟨r, hr⟩ := expandLoop_terminates cp cr (closureDeps codeRequire) fuel
    (seedMap cp codeRequire) hg (by unfold roundBound at hfuel; omega)
  exact ⟨r, hr, expandLoop_spec cp cr _ fuel _ r hg hr⟩

theorem reachable_mem_keys (cp : ProvideMap_) (cr : RequireMap_) (seeds : List Str)
    (map : WorkMap) (hseed : ∀ s ∈ seeds, s ∈ map.keys) (hcl : Closed cp cr map) (n : Str)
    (h : Reachable cp cr seeds n) : n ∈ map.keys := by
  induction h with
  | seed hs => exact hseed _ hs
  | hop _ hf hn ih =>
    refine hcl _ ih _ ?_
    unfold requiresOf
    rw [hf]
    exact hn

theorem WorkMap.mem_enum_of_get? {map : WorkMap} (hnp : protoName ∉ Obj.keys map) {m : Str}
    {v : Option Str} (h : map.get? m = some v) : m ∈ map.keys := by
  have hm : m ∈ Obj.keys map := Obj.mem_keys_of_get? h
  exact (NameObj.mem_forIn map m).2 ⟨hm, fun e => hnp (e ▸ hm)⟩

theorem get?_of_good {cp : ProvideMap_} {cr : RequireMap_} {seeds : List Str} {map : WorkMap}
    (hg : Good cp cr seeds map) (hnp : protoName ∉ Obj.keys map) {m : Str} {v : Option Str}
    (h : map.get? m = some v) : v = cp.get m := by
  have h1 := hg.1 m (WorkMap.mem_enum_of_get? hnp h)
  rw [h] at h1
  exact Option.some.inj h1

/-- C1 (closure completeness).  With a sufficient budget of rounds the loop
of `extractClosureDependencies` exits with a working object in which every
seed is a name, every name required by the file a name maps to is again a name
carrying the provider's answer, and the returned list holds the defining file
of every name reachable from the seeds by require-hops that resolves. -/
theorem closure_complete (cp : ProvideMap_) (cr codeRequire : RequireMap_) (fuel : Nat)
    (hfuel : roundBound cr codeRequire < fuel) :
    ∃ map, closureMap cp cr codeRequire fuel = some map ∧
      closureOf cp cr codeRequire fuel = some (closureFiles map) ∧
      (∀ s ∈ closureDeps codeRequire, s ∈ map.keys) ∧
      (∀ m f, map.get? m = some (some f) →
        ∀ n ∈ cr.get f, map.get? n = some (cp.get n)) ∧
      (∀ n f, Reachable cp cr (closureDeps codeRequire) n → cp.get n = some f →
        some f ∈ closureFiles map) := by
  obtain ⟨map, hmap, hg, hcl⟩ := closureMap_result cp cr codeRequire fuel hfuel
  refine ⟨map, hmap, by simp [closureOf, hmap], hg.2.2.1, ?_, ?_⟩
  · intro m f hm n hn
    have hnp := closureMap_noProto cp cr codeRequire fuel map hmap
    have hv : some f = cp.get m := get?_of_good hg hnp hm
    refine hg.1 n (hcl m (WorkMap.mem_enum_of_get? hnp hm) n ?_)
    unfold requiresOf
    rw [← hv]
    exact hn
  · intro n f hr hf
    have hk := reachable_mem_keys cp cr _ map hg.2.2.1 hcl n hr
    rw [closureFiles_eq, List.mem_map]
    exact ⟨n, hk, by rw [WorkMap.read_of_inv hg.1 hk, hf]⟩

/-- Witness of C1: `X.js` provides `goog.X` and requires `goog.Y`, `Y.js`
provides `goog.Y`, the application requires `goog.X`; the result is `X.js`
followed by `Y.js`. -/
theorem closure_complete_witness :
    closureOf exProvider exRequire exApp 3 = some [some "/X.js".toList, some "/Y.js".toList] ∧
    roundBound exRequire exApp < 3 ∧
    ∃ map, closureMap exProvider exRequire exApp 3 = some map ∧
      closureOf exProvider exRequire exApp 3 = some (closureFiles map) ∧
      (∀ s ∈ closureDeps exApp, s ∈ map.keys) ∧
      (∀ m f, map.get? m = some (some f) →
        ∀ n ∈ exRequire.get f, map.get? n = some (exProvider.get n)) ∧
      (∀ n f, Reachable exProvider exRequire (closureDeps exApp) n →
        exProvider.get n = some f → some f ∈ closureFiles map) :=
  ⟨by decide, by decide, closure_complete exProvider exRequire exApp 3 (by decide)⟩

/-! ## Keys of a scanned require index -/

theorem RequireMap_.mem_paths_set (r : RequireMap_) (path ns k : Str) :
    k ∈ (r.set path ns).map_.keys ↔ k ∈ r.map_.keys ∨ k = path := by
  unfold RequireMap_.set
  simp only
  rw [Obj.mem_keys_set]
  by_cases h : r.map_.hasOwnProperty path = true
  · simp [h]
  · have h' : r.map_.hasOwnProperty path = false := by simpa using h
    simp only [h', Bool.not_false, if_true]
    rw [Obj.mem_keys_set]
    tauto

theorem scanLine_keys (realPath : Str) (st : ProvideMap_ × RequireMap_) (line k : Str)
    (h : k ∈ (scanLine realPath st line).2.map_.keys) : k ∈ st.2.map_.keys ∨ k = realPath := by
  unfold scanLine at h
  simp only at h
  split at h
  · exact (RequireMap_.mem_paths_set _ _ _ _).1 h
  · exact Or.inl h

theorem scanLines_keys (realPath : Str) (lines : List Str) (st : ProvideMap_ × RequireMap_)
    (k : Str) (h : k ∈ (lines.foldl (scanLine realPath) st).2.map_.keys) :
    k ∈ st.2.map_.keys ∨ k = realPath := by
  induction lines generalizing st with
  | nil => exact Or.inl h
  | cons l ls ih =>
    rw [List.foldl_cons] at h
    rcases ih _ h with h1 | h1
    · exact scanLine_keys realPath st l k h1
    · exact Or.inr h1

theorem scanFiles_keys (env : Env) (files : List Str) (pm : ProvideMap_) (rm : RequireMap_)
    (k : Str) (h : k ∈ (scanFiles env files pm rm).2.map_.keys) :
    k ∈ rm.map_.keys ∨ ∃ f ∈ files, k = env.resolve f := by
  unfold scanFiles at h
  generalize hst : (pm, rm) = st at h
  have hrm : rm = st.2 := by rw [← hst]
  rw [hrm]
  clear hst hrm
  induction files generalizing st with
  | nil => exact Or.inl h
  | cons f fs ih =>
    rw [List.foldl_cons] at h
    rcases ih _ h with h1 | ⟨g, hg, hk⟩
    · rcases scanLines_keys _ _ _ _ h1 with h2 | h2
      · exact Or.inl h2
      · exact Or.inr ⟨f, List.mem_cons_self _ _, h2⟩
    · exact Or.inr ⟨g, List.mem_cons_of_mem _ hg, hk⟩

theorem closureIndices_null (env : Env) (hnull : ∀ p, env.resolve p ≠ "null".toList) :
    "null".toList ∉ (closureIndices env).2.map_.keys := by
  intro h
  rcases scanFiles_keys env _ _ _ _ h with h1 | ⟨f, _, hf⟩
  · simp [RequireMap_.new, Obj.keys] at h1
  · exact hnull f hf.symm

/-! ## Minimality -/

theorem reachable_of_reachableKey (cp : ProvideMap_) (cr : RequireMap_) (seeds : List Str)
    (hnull : "null".toList ∉ cr.map_.keys) (n : Str) (h : ReachableKey cp cr seeds n) :
    Reachable cp cr seeds n := by
  induction h with
  | seed hs => exact Reachable.seed hs
  | hop _ hn ih =>
    rename_i m n0 _
    unfold requiresOf at hn
    cases hf : cp.get m with
    | none =>
      rw [hf] at hn
      exact absurd (RequireMap_.mem_keys_of_mem_get hn) hnull
    | some f =>
      rw [hf] at hn
      exact Reachable.hop ih hf hn

theorem closureOf_minimal (cp : ProvideMap_) (cr codeRequire : RequireMap_) (fuel : Nat)
    (hnull : "null".toList ∉ cr.map_.keys) (hfuel : roundBound cr codeRequire < fuel) :
    ∃ l, closureOf cp cr codeRequire fuel = some l ∧
      ∀ e ∈ l, ∃ n, Reachable cp cr (closureDeps codeRequire) n ∧ e = cp.get n := by
  obtain ⟨map, hmap, hg, _⟩ := closureMap_result cp cr codeRequire fuel hfuel
  refine ⟨closureFiles map, by simp [closureOf, hmap], ?_⟩
  intro e he
  rw [closureFiles_eq, List.mem_map] at he
  obtain ⟨k, hk, hread⟩ := he
  refine ⟨k, reachable_of_reachableKey cp cr _ hnull k (hg.2.2.2 k hk), ?_⟩
  rw [← hread, WorkMap.read_of_inv hg.1 hk]

/-- C2 (closure minimality).  Every element of the list `scanDeps` returns is
the bootstrap file or the provider's answer for a name reachable from the
seeds: a seed, or a name required by the defining file of a reachable name.
Resolved paths are absolute, so none is the text `null`. -/
theorem closure_minimal (env : Env) (hnull : ∀ p, env.resolve p ≠ "null".toList)
    (fuel : Nat) (hfuel : roundBound (closureIndices env).2 (libRequire env) < fuel) :
    ∃ l, scanDeps env fuel = some l ∧
      ∀ e ∈ l, e = some (basePath env) ∨
        ∃ n, Reachable (closureIndices env).1 (closureIndices env).2
            (closureDeps (libRequire env)) n ∧
          e = (closureIndices env).1.get n := by
  obtain ⟨l, hl, hmin⟩ := closureOf_minimal (closureIndices env).1 (closureIndices env).2
    (libRequire env) fuel (closureIndices_null env hnull) hfuel
  have hs : scanDeps env fuel = some (l ++ [some (basePath env)]) := by
    show Option.map _ (closureOf _ _ (libRequire env) fuel) = _
    rw [hl]
    rfl
  refine ⟨_, hs, ?_⟩
  intro e he
  rcases List.mem_append.1 he with h | h
  · exact Or.inr (hmin e h)
  · exact Or.inl (by simpa using h)

theorem exEnv_resolve (p : Str) : exEnv.resolve p ≠ "null".toList := by
  unfold exEnv
  simp only
  split
  · simp
  · simp

/-- Witness of C2: in the example environment `scanDeps` returns `X.js`,
`Y.js` and the bootstrap file, and leaves out `Z.js`, which nothing requires. -/
theorem closure_minimal_witness :
    scanDeps exEnv 3 = some [some "/cl/closure/goog/X.js".toList,
      some "/cl/closure/goog/Y.js".toList, some "/cl/closure/goog/base.js".toList] ∧
    ∃ l, scanDeps exEnv 3 = some l ∧
      ∀ e ∈ l, e = some (basePath exEnv) ∨
        ∃ n, Reachable (closureIndices exEnv).1 (closureIndices exEnv).2
            (closureDeps (libRequire exEnv)) n ∧
          e = (closureIndices exEnv).1.get n :=
  ⟨by decide, closure_minimal exEnv exEnv_resolve 3 (by decide)⟩

/-! ## Unresolved names -/

/-- C3 (unresolved names), evaluation at the failing input: the application
requires `goog.X` and `goog.W`, no library file provides `goog.W`; the returned
list ends with the `null` that `ProvideMap_.get` gave for `goog.W`. -/
theorem unresolved_name_yields_null :
    exProvider.get "goog.W".toList = none ∧
    closureOf exProvider exRequire exAppMissing 4
      = some [some "/X.js".toList, none, some "/Y.js".toList] := by
  decide

/-! ## Repeated files -/

/-- C4, counterexample: `X.js` provides `goog.A` and `goog.B`, the application
requires both; the returned list holds `X.js` twice. -/
theorem closure_repeats_file :
    closureOf exProviderTwo RequireMap_.new exAppTwo 3
      = some [some "/X.js".toList, some "/X.js".toList] ∧
    ¬ ([some "/X.js".toList, some "/X.js".toList] : List (Option Str)).Nodup := by
  decide

/-- C4 as amended.  The returned list has one element per name of the final
working object, in enumeration order: the provider's answer for that name.
The names are pairwise distinct, a file occurs once for each name of the
fixed point it defines, and the list is duplicate-free when the provider's
answers for the names of the fixed point are pairwise different. -/
theorem closure_one_per_name (cp : ProvideMap_) (cr codeRequire : RequireMap_) (fuel : Nat)
    (hfuel : roundBound cr codeRequire < fuel) :
    ∃ map, closureMap cp cr codeRequire fuel = some map ∧
      closureOf cp cr codeRequire fuel = some (map.keys.map cp.get) ∧
      map.keys.Nodup ∧
      (∀ f : Str, (map.keys.map cp.get).count (some f)
        = map.keys.countP (fun k => cp.get k == some f)) ∧
      ((∀ a ∈ map.keys, ∀ b ∈ map.keys, cp.get a = cp.get b → a = b) →
        (map.keys.map cp.get).Nodup) := by
  obtain ⟨map, hmap, hg, _⟩ := closureMap_result cp cr codeRequire fuel hfuel
  have hfiles : closureFiles map = map.keys.map cp.get := by
    rw [closureFiles_eq]
    exact List.map_congr_left (fun k hk => WorkMap.read_of_inv hg.1 hk)
  refine ⟨map, hmap, by simp [closureOf, hmap, hfiles], hg.2.1, ?_, ?_⟩
  · intro f
    rw [List.count, List.countP_map]
    rfl
  · intro hinj
    exact (List.nodup_map_iff_inj_on hg.2.1).2 hinj

/-- Witness of the amended C4: in the `X`, `Y` example the names `goog.X` and
`goog.Y` have different files and the result is duplicate-free. -/
theorem closure_one_per_name_witness :
    closureOf exProvider exRequire exApp 3
      = some [some "/X.js".toList, some "/Y.js".toList] ∧
    ∃ map, closureMap exProvider exRequire exApp 3 = some map ∧
      closureOf exProvider exRequire exApp 3 = some (map.keys.map exProvider.get) ∧
      map.keys.Nodup ∧
      (∀ f : Str, (map.keys.map exProvider.get).count (some f)
        = map.keys.countP (fun k => exProvider.get k == some f)) ∧
      ((∀ a ∈ map.keys, ∀ b ∈ map.keys, exProvider.get a = exProvider.get b → a = b) →
        (map.keys.map exProvider.get).Nodup) :=
  ⟨by decide, closure_one_per_name exProvider exRequire exApp 3 (by decide)⟩

/-! ## Termination -/

theorem iterate_good (cp : ProvideMap_) (cr codeRequire : RequireMap_) (i : Nat) :
    Good cp cr (closureDeps codeRequire)
      (Nat.iterate (expandRound cp cr) i (seedMap cp codeRequire)) := by
  induction i with
  | zero => exact seedMap_good cp cr codeRequire
  | succ i ih =>
    rw [Function.iterate_succ_apply']
    exact expandRound_good cp cr _ _ ih

theorem expandLoop_iterate (cp : ProvideMap_) (cr : RequireMap_) :
    ∀ (fuel : Nat) (m r : WorkMap), expandLoop cp cr fuel m = some r →
      ∃ k, 1 ≤ k ∧ k ≤ fuel ∧ r = Nat.iterate (expandRound cp cr) k m := by
  intro fuel
  induction fuel with
  | zero =>
    intro m r h
    simp [expandLoop] at h
  | succ fuel ih =>
    intro m r h
    by_cases hc : countKeys (expandRound cp cr m) = countKeys m
    · simp only [expandLoop, hc, bne_self_eq_false, Bool.false_eq_true, if_false,
        Option.some.injEq] at h
      exact ⟨1, Nat.le_refl _, by omega, by rw [← h]; rfl⟩
    · have hb : (countKeys (expandRound cp cr m) != countKeys m) = true := by
        simpa using hc
      simp only [expandLoop, hb, if_true] at h
      obtain ⟨k, hk1, hk2, hr⟩ := ih _ r h
      exact ⟨k + 1, by omega, by omega, by rw [hr, Function.iterate_succ_apply]⟩

/-- C5 (termination).  For all indices the loop exits within `roundBound + 1`
rounds, cyclic requirements included, with a working object that is an
iterate of the round; from one round to the next the number of names does not
decrease, and it never exceeds the number of seeds plus the number of distinct
names required in the library index. -/
theorem closure_terminates (cp : ProvideMap_) (cr codeRequire : RequireMap_) :
    (∀ extra, ∃ map k, closureMap cp cr codeRequire (roundBound cr codeRequire + 1 + extra)
        = some map ∧ 1 ≤ k ∧
        map = Nat.iterate (expandRound cp cr) k (seedMap cp codeRequire)) ∧
    (∀ i, countKeys (Nat.iterate (expandRound cp cr) i (seedMap cp codeRequire))
        ≤ countKeys (Nat.iterate (expandRound cp cr) (i + 1) (seedMap cp codeRequire))) ∧
    (∀ i, countKeys (Nat.iterate (expandRound cp cr) i (seedMap cp codeRequire))
        ≤ (closureDeps codeRequire).length + cr.getAllDependencies.length) := by
  refine ⟨?_, ?_, ?_⟩
  · intro extra
    obtain ⟨map, hmap, _, _⟩ := closureMap_result cp cr codeRequire
      (roundBound cr codeRequire + 1 + extra) (by omega)
    obtain ⟨k, hk1, _, hk⟩ := expandLoop_iterate cp cr _ _ map hmap
    exact ⟨map, k, hmap, hk1, hk⟩
  · intro i
    rw [Function.iterate_succ_apply']
    exact countKeys_le_expandRound cp cr _ (iterate_good cp cr codeRequire i).1
  · intro i
    exact good_length_le cp cr _ _ (iterate_good cp cr codeRequire i)

/-- The cyclic library (`X.js` requires `goog.Y`, `Y.js` requires `goog.X`):
the loop exits and returns both files. -/
theorem closure_cycle_example :
    closureOf exProvider exRequireCycle exApp 3
      = some [some "/X.js".toList, some "/Y.js".toList] := by
  decide

/-! ## The bootstrap file -/

/-- C6 (bootstrap inclusion).  With a sufficient budget of rounds `scanDeps`
returns a non-empty list: the list `extractClosureDependencies` returns, in
order, followed by the resolved path of `closure/goog/base.js`. -/
theorem scanDeps_bootstrap_last (env : Env) (fuel : Nat)
    (hfuel : roundBound (closureIndices env).2 (libRequire env) < fuel) :
    ∃ files l, extractClosureDependencies env (libRequire env) fuel = some files ∧
      scanDeps env fuel = some l ∧ l ≠ [] ∧
      l.getLast? = some (some (env.resolve
        (env.join env.CLOSURE_LIBRARY_PATH "closure/goog/base.js".toList))) ∧
      l.dropLast = files := by
  obtain ⟨map, hmap, _, _⟩ := closureMap_result (closureIndices env).1 (closureIndices env).2
    (libRequire env) fuel hfuel
  have he : extractClosureDependencies env (libRequire env) fuel = some (closureFiles map) := by
    simp [extractClosureDependencies, closureOf, hmap]
  have hs : scanDeps env fuel = some (closureFiles map ++ [some (basePath env)]) := by
    show Option.map _ (extractClosureDependencies env (libRequire env) fuel) = _
    rw [he]
    rfl
  refine ⟨closureFiles map, _, he, hs, by simp, ?_, by simp⟩
  simp [basePath]

/-- Witness of C6: with an empty `lib` directory there is no seed and
`scanDeps` returns the bootstrap file alone. -/
theorem scanDeps_bootstrap_last_witness :
    closureDeps (libRequire exEnvEmpty) = [] ∧
    scanDeps exEnvEmpty 5 = some [some "/cl/closure/goog/base.js".toList] ∧
    ∃ files l, extractClosureDependencies exEnvEmpty (libRequire exEnvEmpty) 5 = some files ∧
      scanDeps exEnvEmpty 5 = some l ∧ l ≠ [] ∧
      l.getLast? = some (some (exEnvEmpty.resolve
        (exEnvEmpty.join exEnvEmpty.CLOSURE_LIBRARY_PATH "closure/goog/base.js".toList))) ∧
      l.dropLast = files :=
  ⟨by decide, by decide, scanDeps_bootstrap_last exEnvEmpty 5 (by decide)⟩

/-! ## Directive extraction -/

theorem slice_zero_append (k rest : Str) : slice (k ++ rest) 0 k.length = k := by
  simp [slice]

theorem indexOf_first (a t : Str) (c : Char) (h : c ∉ a) :
    indexOf (a ++ c :: t) c = (a.length : Int) := by
  unfold indexOf
  rw [if_pos (by simp), List.indexOf_append_of_not_mem h, List.indexOf_cons_self]
  rfl

theorem substring_middle (x n y : Str) :
    substring (x ++ (n ++ y)) (x.length : Int) ((x.length : Int) + n.length) = n := by
  unfold substring
  have hlen : ((x ++ (n ++ y)).length : Int) = x.length + n.length + y.length := by
    simp only [List.length_append]
    push_cast
    ring
  simp only [hlen]
  have h1 : (max (min (max (x.length : Int) 0) (x.length + n.length + y.length))
      (min (max ((x.length : Int) + n.length) 0) (x.length + n.length + y.length))).toNat
      = x.length + n.length := by omega
  have h2 : (min (min (max (x.length : Int) 0) (x.length + n.length + y.length))
      (min (max ((x.length : Int) + n.length) 0) (x.length + n.length + y.length))).toNat
      = x.length := by omega
  rw [h1, h2, ← List.append_assoc, ← List.length_append, List.take_left', List.drop_left']
  · rfl
  · rfl

theorem extractNamespace_shape (k a n b t : Str) (ha : a.length = 2) (hb : b.length = 2)
    (hk : ';' ∉ k) (ha' : ';' ∉ a) (hn : ';' ∉ n) (hb' : ';' ∉ b) :
    extractNamespace (k ++ (a ++ (n ++ (b ++ ';' :: t)))) k = some n := by
  unfold extractNamespace
  rw [if_pos (slice_zero_append k _)]
  have hidx : indexOf (k ++ (a ++ (n ++ (b ++ ';' :: t)))) ';'
      = ((k ++ (a ++ (n ++ b))).length : Int) := by
    have h := indexOf_first (k ++ (a ++ (n ++ b))) t ';' (by simp [hk, ha', hn, hb'])
    simpa [List.append_assoc] using h
  have hsub := substring_middle (k ++ a) n (b ++ ';' :: t)
  have e1 : ((k ++ a).length : Int) = (k.length : Int) + 2 := by
    simp only [List.length_append, ha]
    push_cast
    ring
  have e2 : ((k ++ (a ++ (n ++ b))).length : Int) - 2 = (k.length : Int) + 2 + n.length := by
    simp only [List.length_append, ha, hb]
    push_cast
    ring
  rw [e1, List.append_assoc] at hsub
  rw [hidx, e2, hsub]

/-- C7 (extraction on the loader's line format).  For a name `n` without a
semicolon and any trailing text `t`, the line `goog.require('n');t` scanned
for `goog.require` gives exactly `n`, and the line `goog.provide('n');t`
scanned for `goog.provide` gives exactly `n`. -/
theorem extractNamespace_loader_line (n t : Str) (hn : ';' ∉ n) :
    extractNamespace ("goog.require(\x27".toList ++ n ++ "\x27);".toList ++ t)
        "goog.require".toList = some n ∧
    extractNamespace ("goog.provide(\x27".toList ++ n ++ "\x27);".toList ++ t)
        "goog.provide".toList = some n := by
  have hr := extractNamespace_shape "goog.require".toList "(\x27".toList n "\x27)".toList t
    rfl rfl (by decide) (by decide) hn (by decide)
  have hp := extractNamespace_shape "goog.provide".toList "(\x27".toList n "\x27)".toList t
    rfl rfl (by decide) (by decide) hn (by decide)
  rw [List.append_assoc, List.append_assoc, List.append_assoc, List.append_assoc]
  exact ⟨hr, hp⟩

/-- Witness of C7: the line `goog.require('goog.Promise');` gives
`goog.Promise`. -/
theorem extractNamespace_loader_line_witness :
    ("goog.require(\x27".toList ++ "goog.Promise".toList ++ "\x27);".toList ++ []
      = "goog.require(\x27goog.Promise\x27);".toList) ∧
    ';' ∉ "goog.Promise".toList ∧
    extractNamespace ("goog.require(\x27".toList ++ "goog.Promise".toList ++ "\x27);".toList ++ [])
        "goog.require".toList = some "goog.Promise".toList ∧
    extractNamespace ("goog.provide(\x27".toList ++ "goog.Promise".toList ++ "\x27);".toList ++ [])
        "goog.provide".toList = some "goog.Promise".toList :=
  ⟨by decide, by decide, extractNamespace_loader_line "goog.Promise".toList [] (by decide)⟩

/-- C8, counterexample: on the line `declare 'a.b.c';` scanned for `declare`
the extraction gives `a.b.`, not `a.b.c`. -/
theorem extractNamespace_spec_line :
    extractNamespace "declare \x27a.b.c\x27;".toList "declare".toList = some "a.b.".toList ∧
    extractNamespace "declare \x27a.b.c\x27;".toList "declare".toList
      ≠ some "a.b.c".toList := by
  decide

/-- C8 as amended.  For a keyword `k` and a name without a semicolon, the
extraction starts two characters after the keyword and ends two characters
before the first semicolon: on a line made of `k`, two characters, `n`, two
characters and a semicolon (none of the four a semicolon), followed by any
text, it gives exactly `n`; on a line made of `k`, a delimiter, a quote, a
non-empty name `m`, a quote and a semicolon it gives `m` without its last
character. -/
theorem extractNamespace_two_before_semicolon (k t : Str) (hk : ';' ∉ k) :
    (∀ (n : Str) (a1 a2 b1 b2 : Char), ';' ∉ n → a1 ≠ ';' → a2 ≠ ';' → b1 ≠ ';' →
      b2 ≠ ';' →
      extractNamespace (k ++ (a1 :: a2 :: (n ++ (b1 :: b2 :: ';' :: t)))) k = some n) ∧
    (∀ (m : Str) (d q1 q2 : Char), ';' ∉ m → m ≠ [] → d ≠ ';' → q1 ≠ ';' → q2 ≠ ';' →
      extractNamespace (k ++ (d :: q1 :: (m ++ (q2 :: ';' :: t)))) k = some m.dropLast) := by
  have key : ∀ (n : Str) (a1 a2 b1 b2 : Char), ';' ∉ n → a1 ≠ ';' → a2 ≠ ';' → b1 ≠ ';' →
      b2 ≠ ';' →
      extractNamespace (k ++ (a1 :: a2 :: (n ++ (b1 :: b2 :: ';' :: t)))) k = some n := by
    intro n a1 a2 b1 b2 hn h1 h2 h3 h4
    exact extractNamespace_shape k [a1, a2] n [b1, b2] t rfl rfl hk
      (by simp [Ne.symm h1, Ne.symm h2]) hn (by simp [Ne.symm h3, Ne.symm h4])
  refine ⟨key, ?_⟩
  intro m d q1 q2 hm hne hd hq1 hq2
  have hsplit : m = m.dropLast ++ [m.getLast hne] := (List.dropLast_append_getLast hne).symm
  have hlast : m.getLast hne ≠ ';' := fun h => hm (h ▸ List.getLast_mem hne)
  have hinit : ';' ∉ m.dropLast := fun h => hm (List.dropLast_subset m h)
  have h := key m.dropLast d q1 (m.getLast hne) q2 hinit hd hq1 hlast hq2
  have hline : m ++ (q2 :: ';' :: t) = m.dropLast ++ (m.getLast hne :: q2 :: ';' :: t) := by
    conv_lhs => rw [hsplit]
    simp
  rw [hline]
  exact h

/-- Witness of the amended C8: the line `declare('a.b.c'); // x` gives `a.b.c`,
and the line `declare 'a.b.c';` gives `a.b.`. -/
theorem extractNamespace_two_before_semicolon_witness :
    extractNamespace "declare(\x27a.b.c\x27); // x".toList "declare".toList
      = some "a.b.c".toList ∧
    extractNamespace "declare \x27a.b.c\x27;".toList "declare".toList
      = some "a.b.".toList :=
  ⟨(extractNamespace_two_before_semicolon "declare".toList " // x".toList (by decide)).1
      "a.b.c".toList '(' (Char.ofNat 39) (Char.ofNat 39) ')' (by decide) (by decide)
      (by decide) (by decide) (by decide),
    (extractNamespace_two_before_semicolon "declare".toList [] (by decide)).2
      "a.b.c".toList ' ' (Char.ofNat 39) (Char.ofNat 39) (by decide) (by decide) (by decide)
      (by decide) (by decide)⟩

/-! ## Column-zero matching -/

theorem extractNamespace_eq_none_iff (line pattern : Str) :
    extractNamespace line pattern = none ↔ ¬ ∃ t, line = pattern ++ t := by
  unfold extractNamespace slice
  rw [List.drop_zero]
  constructor
  · intro h ⟨t, ht⟩
    rw [ht, List.take_left', if_pos rfl] at h
    · cases h
    · rfl
  · intro h
    rw [if_neg]
    intro he
    exact h ⟨line.drop pattern.length, by
      conv_lhs => rw [← List.take_append_drop pattern.length line, he]⟩

/-- C9 (column-zero literal matching).  For every line and pattern the
extraction gives `null` exactly when the line does not begin with the pattern;
scanning a line that begins with neither `goog.require` nor `goog.provide`
leaves both indices as they were. -/
theorem extractNamespace_column_zero (line : Str) :
    (∀ pattern : Str, extractNamespace line pattern = none ↔ ¬ ∃ t, line = pattern ++ t) ∧
    (∀ (realPath : Str) (st : ProvideMap_ × RequireMap_),
      (¬ ∃ t, line = "goog.require".toList ++ t) →
      (¬ ∃ t, line = "goog.provide".toList ++ t) →
      scanLine realPath st line = st) := by
  refine ⟨fun pattern => extractNamespace_eq_none_iff line pattern, ?_⟩
  intro realPath st hr hp
  unfold scanLine
  rw [(extractNamespace_eq_none_iff line _).2 hr, (extractNamespace_eq_none_iff line _).2 hp]
  rfl

/-- Witness of C9: a `goog.require` directive preceded by two blanks registers
nothing. -/
theorem extractNamespace_column_zero_witness :
    scanLine "/a.js".toList (exProvider, exRequire) "  goog.require(\x27goog.X\x27);".toList
      = (exProvider, exRequire) :=
  (extractNamespace_column_zero "  goog.require(\x27goog.X\x27);".toList).2
    "/a.js".toList (exProvider, exRequire)
    ((extractNamespace_eq_none_iff _ _).1 (by decide))
    ((extractNamespace_eq_none_iff _ _).1 (by decide))

/-! ## Whole-file scanning -/

theorem ProvideMap_.reverse_set (p : ProvideMap_) (ns path : Str) :
    (p.set ns path).reverse_.get? path = some ((p.reverse_.get? path).getD [] ++ [ns]) := by
  unfold ProvideMap_.set
  simp only
  rw [Obj.get?_set, if_pos rfl]
  by_cases h : p.reverse_.hasOwnProperty path = true
  · simp [h]
  · have h' : p.reverse_.hasOwnProperty path = false := by simpa using h
    have hk : path ∉ p.reverse_.keys := fun hm => h ((Obj.hasOwnProperty_iff _ _).2 hm)
    simp only [h', Bool.not_false, if_true]
    rw [Obj.get?_set, if_pos rfl, (Obj.get?_eq_none_iff _ _).2 hk]
    rfl

theorem RequireMap_.get_eq_names (r : RequireMap_) (path : Str) :
    r.get path = enumOrder (r.names path) := by
  rw [RequireMap_.get_eq]
  rfl

theorem RequireMap_.inner_set (r : RequireMap_) (path ns : Str) :
    (r.set path ns).map_.get? path
      = some (NameObj.set ((r.map_.get? path).getD []) ns true) := by
  unfold RequireMap_.set
  simp only
  rw [Obj.get?_set, if_pos rfl]
  by_cases h : r.map_.hasOwnProperty path = true
  · simp only [h, Bool.not_true, Bool.false_eq_true, if_false]
  · have h' : r.map_.hasOwnProperty path = false := by simpa using h
    have hk : path ∉ r.map_.keys := fun hm => h ((Obj.hasOwnProperty_iff _ _).2 hm)
    simp only [h', Bool.not_false, if_true]
    rw [Obj.get?_set, if_pos rfl, (Obj.get?_eq_none_iff _ _).2 hk]
    rfl

theorem RequireMap_.fileNames_set (r : RequireMap_) (path ns : Str) :
    (r.set path ns).names path
      = appendNew (r.names path) ([ns].filter (fun n => n ≠ protoName)) := by
  unfold RequireMap_.names
  rw [RequireMap_.inner_set, Option.getD_some, NameObj.names_set]
  by_cases hp : ns = protoName
  · have hf : [ns].filter (fun n => n ≠ protoName) = [] := by
      rw [List.filter_eq_nil_iff]
      intro x hx
      rw [List.mem_singleton] at hx
      subst hx
      simpa using hp
    rw [if_pos (Or.inl hp), hf]
    rfl
  · have hf : [ns].filter (fun n => n ≠ protoName) = [ns] := by
      rw [List.filter_eq_self]
      intro x hx
      rw [List.mem_singleton] at hx
      subst hx
      simpa using hp
    rw [hf]
    show _ = if ns ∈ NameObj.names ((r.map_.get? path).getD []) then _ else _
    by_cases hm : ns ∈ NameObj.names ((r.map_.get? path).getD [])
    · rw [if_pos (Or.inr hm), if_pos hm]
    · rw [if_neg (fun h => h.elim hp hm), if_neg hm]

theorem RequireMap_.get_set (r : RequireMap_) (path ns : Str) :
    (r.set path ns).get path
      = enumOrder (appendNew (r.names path) ([ns].filter (fun n => n ≠ protoName))) := by
  rw [RequireMap_.get_eq_names, RequireMap_.fileNames_set]

theorem extractedNames_cons (pattern line : Str) (lines : List Str) :
    extractedNames pattern (line :: lines)
      = extractedNames pattern [line] ++ extractedNames pattern lines := by
  unfold extractedNames
  rw [← List.filter_append, ← List.filterMap_append]
  rfl

theorem extractedNames_single (pattern line : Str) :
    extractedNames pattern [line]
      = if truthy (extractNamespace line pattern) then
          [(extractNamespace line pattern).getD []] else [] := by
  unfold extractedNames
  cases h : extractNamespace line pattern with
  | none => simp [List.filterMap, h, truthy]
  | some n =>
    cases n with
    | nil => simp [List.filterMap, h, truthy]
    | cons c cs => simp [List.filterMap, h, truthy]

theorem scanLine_provides (realPath : Str) (st : ProvideMap_ × RequireMap_) (line : Str) :
    ((scanLine realPath st line).1.reverse_.get? realPath).getD []
      = (st.1.reverse_.get? realPath).getD []
        ++ extractedNames "goog.provide".toList [line] := by
  rw [extractedNames_single]
  unfold scanLine
  simp only
  by_cases h : truthy (extractNamespace line "goog.provide".toList) = true
  · rw [if_pos h, if_pos h, ProvideMap_.reverse_set]
    rfl
  · rw [if_neg h, if_neg h, List.append_nil]

theorem scanLine_requires (realPath : Str) (st : ProvideMap_ × RequireMap_) (line : Str) :
    (scanLine realPath st line).2.names realPath
      = appendNew (st.2.names realPath)
          ((extractedNames "goog.require".toList [line]).filter (fun n => n ≠ protoName)) := by
  rw [extractedNames_single]
  unfold scanLine
  simp only
  by_cases h : truthy (extractNamespace line "goog.require".toList) = true
  · rw [if_pos h, if_pos h, RequireMap_.fileNames_set]
  · rw [if_neg h, if_neg h]
    rfl

theorem appendNew_append (l a b : List Str) :
    appendNew l (a ++ b) = appendNew (appendNew l a) b := by
  unfold appendNew
  rw [List.foldl_append]

theorem scanLines_provides (realPath : Str) (lines : List Str)
    (st : ProvideMap_ × RequireMap_) :
    ((lines.foldl (scanLine realPath) st).1.reverse_.get? realPath).getD []
      = (st.1.reverse_.get? realPath).getD []
        ++ extractedNames "goog.provide".toList lines := by
  induction lines generalizing st with
  | nil => simp [extractedNames]
  | cons l ls ih =>
    rw [List.foldl_cons, ih, extractedNames_cons _ l ls, scanLine_provides, List.append_assoc]

theorem scanLines_requires (realPath : Str) (lines : List Str)
    (st : ProvideMap_ × RequireMap_) :
    (lines.foldl (scanLine realPath) st).2.names realPath
      = appendNew (st.2.names realPath)
          ((extractedNames "goog.require".toList lines).filter (fun n => n ≠ protoName)) := by
  induction lines generalizing st with
  | nil => rfl
  | cons l ls ih =>
    rw [List.foldl_cons, ih, extractedNames_cons _ l ls, scanLine_requires, List.filter_append,
      appendNew_append]

theorem mem_appendNew (l names : List Str) (n : Str) :
    n ∈ appendNew l names ↔ n ∈ l ∨ n ∈ names := by
  unfold appendNew
  induction names generalizing l with
  | nil => simp
  | cons a as ih =>
    rw [List.foldl_cons, ih]
    by_cases h : a ∈ l
    · rw [if_pos h, List.mem_cons]
      constructor
      · rintro (h1 | h1)
        · exact Or.inl h1
        · exact Or.inr (Or.inr h1)
      · rintro (h1 | h1 | h1)
        · exact Or.inl h1
        · exact Or.inl (h1 ▸ h)
        · exact Or.inr h1
    · rw [if_neg h, List.mem_append, List.mem_singleton, List.mem_cons]
      tauto

theorem nodup_appendNew (l names : List Str) (h : l.Nodup) : (appendNew l names).Nodup := by
  unfold appendNew
  induction names generalizing l with
  | nil => exact h
  | cons a as ih =>
    rw [List.foldl_cons]
    apply ih
    by_cases ha : a ∈ l
    · rw [if_pos ha]
      exact h
    · rw [if_neg ha]
      exact List.Nodup.append h (List.nodup_singleton a) (by simpa using ha)

theorem scanLines_provides_entry (realPath : Str) (lines : List Str)
    (st : ProvideMap_ × RequireMap_) :
    (lines.foldl (scanLine realPath) st).1.reverse_.get? realPath
      = if extractedNames "goog.provide".toList lines = [] then st.1.reverse_.get? realPath
        else some ((st.1.reverse_.get? realPath).getD []
          ++ extractedNames "goog.provide".toList lines) := by
  induction lines generalizing st with
  | nil => simp [extractedNames]
  | cons l ls ih =>
    rw [List.foldl_cons, ih, extractedNames_cons _ l ls, scanLine_provides,
      extractedNames_single]
    by_cases h : truthy (extractNamespace l "goog.provide".toList) = true
    · have hst : (scanLine realPath st l).1.reverse_.get? realPath
          = some ((st.1.reverse_.get? realPath).getD []
            ++ [(extractNamespace l "goog.provide".toList).getD []]) := by
        unfold scanLine
        simp only
        rw [if_pos h, ProvideMap_.reverse_set]
      rw [if_pos h, hst]
      by_cases hls : extractedNames "goog.provide".toList ls = []
      · simp [hls]
      · simp [hls]
    · have hst : (scanLine realPath st l).1 = st.1 := by
        unfold scanLine
        simp only
        rw [if_neg h]
      rw [if_neg h, hst]
      simp

/-- C10, counterexample: the file `lib/app.js` holds the line
`goog.require('__proto__');`.  The name `__proto__` is extracted from that
line, and `RequireMap_.get` of the file does not hold it: the write
`this.map_[path]['__proto__'] = true` creates no property. -/
theorem scanFiles_proto_not_registered :
    extractedNames "goog.require".toList
        (split '\n' (exEnvProto.readFile (exEnvProto.resolve "lib/app.js".toList)))
      = ["__proto__".toList, "goog.X".toList] ∧
    (scanFiles exEnvProto ["lib/app.js".toList] ProvideMap_.new RequireMap_.new).2.get
        (exEnvProto.resolve "lib/app.js".toList) = ["goog.X".toList] ∧
    ¬ (∀ n, n ∈ (scanFiles exEnvProto ["lib/app.js".toList] ProvideMap_.new
          RequireMap_.new).2.get (exEnvProto.resolve "lib/app.js".toList)
        ↔ n ∈ extractedNames "goog.require".toList
            (split '\n' (exEnvProto.readFile (exEnvProto.resolve "lib/app.js".toList)))) := by
  refine ⟨by decide, by decide, ?_⟩
  intro h
  exact absurd ((h "__proto__".toList).2 (by decide)) (by decide)

/-- C10 as amended (whole-file scanning).  After `scanFiles` on one file with
fresh indices, the resolved path of the file being plain, the entry of `getAllProvides()` for the file is the list, in
line order, of the non-empty names extracted from its lines that begin with
`goog.provide` (no entry when there is none), and `RequireMap_.get` of the file
holds exactly the non-empty names other than `__proto__` extracted from its
lines that begin with `goog.require`, each once: it is the list of those names
in first-occurrence order, put in the order of `for (key in obj)`; every line
of the file is scanned. -/
theorem scanFiles_whole_file (env : Env) (path : Str)
    (_hpath : PlainPath (env.resolve path)) :
    ((scanFiles env [path] ProvideMap_.new RequireMap_.new).1.getAllProvides.get?
        (env.resolve path)).getD []
      = extractedNames "goog.provide".toList
          (split '\n' (env.readFile (env.resolve path))) ∧
    ((scanFiles env [path] ProvideMap_.new RequireMap_.new).1.getAllProvides.get?
        (env.resolve path) = none ↔
      extractedNames "goog.provide".toList
          (split '\n' (env.readFile (env.resolve path))) = []) ∧
    (∀ n, n ∈ (scanFiles env [path] ProvideMap_.new RequireMap_.new).2.get (env.resolve path)
      ↔ n ∈ extractedNames "goog.require".toList
          (split '\n' (env.readFile (env.resolve path))) ∧ n ≠ protoName) ∧
    ((scanFiles env [path] ProvideMap_.new RequireMap_.new).2.get (env.resolve path)).Nodup ∧
    (scanFiles env [path] ProvideMap_.new RequireMap_.new).2.get (env.resolve path)
      = enumOrder (appendNew []
          ((extractedNames "goog.require".toList
            (split '\n' (env.readFile (env.resolve path)))).filter
              (fun n => n ≠ protoName))) := by
  have hscan : scanFiles env [path] ProvideMap_.new RequireMap_.new
      = (split '\n' (env.readFile (env.resolve path))).foldl (scanLine (env.resolve path))
          (ProvideMap_.new, RequireMap_.new) := rfl
  have hnames : RequireMap_.new.names (env.resolve path) = [] := rfl
  have hget : (scanFiles env [path] ProvideMap_.new RequireMap_.new).2.get (env.resolve path)
      = enumOrder (appendNew []
          ((extractedNames "goog.require".toList
            (split '\n' (env.readFile (env.resolve path)))).filter
              (fun n => n ≠ protoName))) := by
    rw [hscan, RequireMap_.get_eq_names, scanLines_requires, hnames]
  refine ⟨?_, ?_, ?_, ?_, hget⟩
  · rw [hscan, ProvideMap_.getAllProvides, scanLines_provides]
    rfl
  · rw [hscan, ProvideMap_.getAllProvides, scanLines_provides_entry]
    by_cases h : extractedNames "goog.provide".toList
        (split '\n' (env.readFile (env.resolve path))) = []
    · rw [if_pos h]
      exact ⟨fun _ => h, fun _ => rfl⟩
    · rw [if_neg h]
      exact ⟨fun h0 => (by cases h0), fun h0 => absurd h0 h⟩
  · intro n
    rw [hget, mem_enumOrder, mem_appendNew, List.mem_filter]
    constructor
    · rintro (h | ⟨h1, h2⟩)
      · cases h
      · exact ⟨h1, by simpa using h2⟩
    · rintro ⟨h1, h2⟩
      exact Or.inr ⟨h1, by simpa using h2⟩
  · rw [hget, nodup_enumOrder]
    exact nodup_appendNew [] _ List.nodup_nil

/-- Witness of the amended C10: the file `lib/app.js` requires `__proto__` and
`goog.X` and provides `__proto__`; the provide entry lists `__proto__`, the
require list holds `goog.X` alone. -/
theorem scanFiles_whole_file_witness :
    PlainPath (exEnvProto.resolve "lib/app.js".toList) ∧
    ((scanFiles exEnvProto ["lib/app.js".toList] ProvideMap_.new
        RequireMap_.new).1.getAllProvides.get? (exEnvProto.resolve "lib/app.js".toList)).getD []
      = ["__proto__".toList] ∧
    (scanFiles exEnvProto ["lib/app.js".toList] ProvideMap_.new RequireMap_.new).2.get
        (exEnvProto.resolve "lib/app.js".toList) = ["goog.X".toList] :=
  ⟨by decide,
    (scanFiles_whole_file exEnvProto "lib/app.js".toList (by decide)).1.trans (by decide),
    (scanFiles_whole_file exEnvProto "lib/app.js".toList (by decide)).2.2.2.2.trans
      (by decide)⟩

/-- The file `X.js` of the example environment: one provide and one require
directive on consecutive lines, both registered. -/
theorem scanFiles_example :
    (scanFiles exEnv ["/cl/closure/goog/X.js".toList] ProvideMap_.new
        RequireMap_.new).1.getAllProvides.get? "/cl/closure/goog/X.js".toList
      = some ["goog.X".toList] ∧
    (scanFiles exEnv ["/cl/closure/goog/X.js".toList] ProvideMap_.new
        RequireMap_.new).2.get "/cl/closure/goog/X.js".toList = ["goog.Y".toList] := by
  decide

/-! ## The provide index -/

theorem ProvideMap_.lookup_eq (p : ProvideMap_) (ns : Str) : p.get ns = p.map_.get? ns := by
  unfold ProvideMap_.get
  by_cases h : p.map_.hasOwnProperty ns = true
  · rw [if_pos h]
  · rw [if_neg h]
    have hk : ns ∉ p.map_.keys := fun hm => h ((Obj.hasOwnProperty_iff _ _).2 hm)
    exact ((Obj.get?_eq_none_iff _ _).2 hk).symm

theorem ProvideMap_.lookup_set (p : ProvideMap_) (ns path ns' : Str) :
    (p.set ns path).get ns'
      = if ns = ns' ∧ ns ≠ protoName then some path else p.get ns' := by
  rw [ProvideMap_.lookup_eq, ProvideMap_.lookup_eq]
  exact NameObj.get?_nset p.map_ ns path ns'

theorem ProvideMap_.lookup_setAll (calls : List (Str × Str)) (p : ProvideMap_) (ns : Str)
    (hns : ns ≠ protoName) :
    (p.setAll calls).get ns
      = ((calls.reverse.find? (fun c => c.1 == ns)).map Prod.snd).orElse (fun _ => p.get ns) := by
  induction calls generalizing p with
  | nil => simp [ProvideMap_.setAll]
  | cons c cs ih =>
    have hstep : p.setAll (c :: cs) = (p.set c.1 c.2).setAll cs := rfl
    rw [hstep, ih, ProvideMap_.lookup_set, List.reverse_cons, List.find?_append]
    cases hf : cs.reverse.find? (fun c => c.1 == ns) with
    | some d => simp
    | none =>
      by_cases hc : c.1 = ns
      · have hcp : c.1 = ns ∧ c.1 ≠ protoName := ⟨hc, hc ▸ hns⟩
        rw [if_pos hcp]
        simp [hc]
      · have hcp : ¬ (c.1 = ns ∧ c.1 ≠ protoName) := fun h => hc h.1
        rw [if_neg hcp]
        simp [hc]

theorem ProvideMap_.lookup_setAll_proto (calls : List (Str × Str)) (p : ProvideMap_) :
    (p.setAll calls).get protoName = p.get protoName := by
  induction calls generalizing p with
  | nil => rfl
  | cons c cs ih =>
    have hstep : p.setAll (c :: cs) = (p.set c.1 c.2).setAll cs := rfl
    rw [hstep, ih, ProvideMap_.lookup_set, if_neg]
    rintro ⟨h1, h2⟩
    exact h2 h1

theorem ProvideMap_.lookup_setAll_new (calls : List (Str × Str)) (ns : Str) :
    (ProvideMap_.new.setAll calls).get ns
      = if ns = protoName then none
        else (calls.reverse.find? (fun c => c.1 == ns)).map Prod.snd := by
  have hnew : ∀ k, ProvideMap_.new.get k = none := fun _ => rfl
  by_cases hns : ns = protoName
  · rw [if_pos hns, hns, ProvideMap_.lookup_setAll_proto, hnew]
  · rw [if_neg hns, ProvideMap_.lookup_setAll calls _ ns hns, hnew]
    cases calls.reverse.find? (fun c => c.1 == ns) <;> rfl

theorem ProvideMap_.registered_setAll (calls : List (Str × Str)) (p : ProvideMap_) (k : Str) :
    k ∈ Obj.keys (p.setAll calls).map_
      ↔ k ∈ Obj.keys p.map_ ∨ (k ≠ protoName ∧ ∃ c ∈ calls, c.1 = k) := by
  induction calls generalizing p with
  | nil => simp [ProvideMap_.setAll]
  | cons c cs ih =>
    have hstep : p.setAll (c :: cs) = (p.set c.1 c.2).setAll cs := rfl
    have hset : k ∈ Obj.keys (p.set c.1 c.2).map_
        ↔ k ∈ Obj.keys p.map_ ∨ (k = c.1 ∧ c.1 ≠ protoName) := by
      show k ∈ Obj.keys (NameObj.set p.map_ c.1 c.2) ↔ _
      unfold NameObj.set
      by_cases hc : c.1 = protoName
      · rw [if_pos hc]
        exact ⟨Or.inl, fun h => h.elim id (fun h' => absurd hc h'.2)⟩
      · rw [if_neg hc, Obj.mem_keys_set]
        exact ⟨fun h => h.elim Or.inl (fun h' => Or.inr ⟨h', hc⟩),
          fun h => h.elim Or.inl (fun h' => Or.inr h'.1)⟩
    rw [hstep, ih, hset]
    constructor
    · rintro ((h | ⟨h1, h2⟩) | ⟨h1, d, hd, h2⟩)
      · exact Or.inl h
      · exact Or.inr ⟨h1 ▸ h2, c, List.mem_cons_self _ _, h1.symm⟩
      · exact Or.inr ⟨h1, d, List.mem_cons_of_mem _ hd, h2⟩
    · rintro (h | ⟨h1, d, hd, h2⟩)
      · exact Or.inl (Or.inl h)
      · rcases List.mem_cons.1 hd with e | e
        · subst e
          exact Or.inl (Or.inr ⟨h2.symm, h2 ▸ h1⟩)
        · exact Or.inr ⟨h1, d, e, h2⟩

theorem ProvideMap_.getCall_setAll (calls : List (Str × Str)) (ns : Str) :
    ((∀ c ∈ calls, c.1 ≠ "hasOwnProperty".toList) →
      (ProvideMap_.new.setAll calls).getCall ns
        = Outcome.returned ((ProvideMap_.new.setAll calls).get ns)) ∧
    ((∃ c ∈ calls, c.1 = "hasOwnProperty".toList) →
      (ProvideMap_.new.setAll calls).getCall ns = Outcome.typeError) := by
  have hreg := ProvideMap_.registered_setAll calls ProvideMap_.new "hasOwnProperty".toList
  have hne : "hasOwnProperty".toList ≠ protoName := by decide
  constructor
  · intro hno
    unfold ProvideMap_.getCall
    rw [if_neg]
    intro hhas
    rcases hreg.1 ((Obj.hasOwnProperty_iff _ _).1 hhas) with h | ⟨_, c, hc, hk⟩
    · simp [ProvideMap_.new, Obj.keys] at h
    · exact hno c hc hk
  · intro hyes
    unfold ProvideMap_.getCall
    rw [if_pos]
    exact (Obj.hasOwnProperty_iff _ _).2 (hreg.2 (Or.inr ⟨hne, hyes⟩))

/-- C11, counterexample: after `set('__proto__', '/X.js')` the call
`get('__proto__')` returns `null`, not the path that was set; and once
`hasOwnProperty` has been registered, `get` throws a `TypeError`. -/
theorem provideMap_proto_not_stored :
    (ProvideMap_.new.setAll [("__proto__".toList, "/X.js".toList)]).getCall "__proto__".toList
      = Outcome.returned none ∧
    (ProvideMap_.new.setAll [("goog.X".toList, "/X.js".toList),
        ("hasOwnProperty".toList, "/H.js".toList)]).getCall "goog.X".toList
      = Outcome.typeError := by
  decide

/-- C11 as amended (forward lookup, last write wins).  After a sequence of
`set` calls with plain paths on a fresh provide index, none of them for the
name `hasOwnProperty`, the call `get(ns)` returns: for `ns` other than `__proto__`
the path of the last call made for `ns`, `null` exactly when no call was made
for `ns`; for `__proto__` always `null`.  After `set(ns, p1)` then
`set(ns, p2)` made in such a state, with plain paths and `ns` other than
`__proto__` and `hasOwnProperty`, the call `get(ns)` returns `p2`.  Once a call was made for `hasOwnProperty`, `get` throws a
`TypeError`. -/
theorem provideMap_last_write_wins (calls : List (Str × Str)) (ns : Str)
    (_hpaths : ∀ c ∈ calls, PlainPath c.2) :
    ((∀ c ∈ calls, c.1 ≠ "hasOwnProperty".toList) →
      (ProvideMap_.new.setAll calls).getCall ns
        = Outcome.returned (if ns = protoName then none
            else (calls.reverse.find? (fun c => c.1 == ns)).map Prod.snd)) ∧
    ((∃ c ∈ calls, c.1 = "hasOwnProperty".toList) →
      (ProvideMap_.new.setAll calls).getCall ns = Outcome.typeError) ∧
    (ns ≠ protoName →
      ((ProvideMap_.new.setAll calls).get ns = none ↔ ∀ c ∈ calls, c.1 ≠ ns)) ∧
    ((∀ c ∈ calls, c.1 ≠ "hasOwnProperty".toList) →
      ∀ p1 p2 : Str, PlainPath p1 → PlainPath p2 → ns ≠ protoName →
        ns ≠ "hasOwnProperty".toList →
        (((ProvideMap_.new.setAll calls).set ns p1).set ns p2).getCall ns
          = Outcome.returned (some p2)) := by
  refine ⟨?_, (ProvideMap_.getCall_setAll calls ns).2, ?_, ?_⟩
  · intro hno
    rw [(ProvideMap_.getCall_setAll calls ns).1 hno, ProvideMap_.lookup_setAll_new]
  · intro hns
    rw [ProvideMap_.lookup_setAll_new, if_neg hns, Option.map_eq_none', List.find?_eq_none]
    simp
  · intro hno p1 p2 _ _ hns hnh
    have hstate : ((ProvideMap_.new.setAll calls).set ns p1).set ns p2
        = ProvideMap_.new.setAll (calls ++ [(ns, p1), (ns, p2)]) := by
      simp [ProvideMap_.setAll, List.foldl_append]
    have hno2 : ∀ c ∈ calls ++ [(ns, p1), (ns, p2)], c.1 ≠ "hasOwnProperty".toList := by
      intro c hc
      rcases List.mem_append.1 hc with h | h
      · exact hno c h
      · rcases List.mem_cons.1 h with e | e
        · rw [e]
          exact hnh
        · rw [List.mem_singleton.1 e]
          exact hnh
    have hcall := (ProvideMap_.getCall_setAll (calls ++ [(ns, p1), (ns, p2)]) ns).1 hno2
    rw [← hstate] at hcall
    rw [hcall, ProvideMap_.lookup_set, if_pos ⟨rfl, hns⟩]

/-- Witness of the amended C11: `goog.X` registered for `X.js`, `__proto__`
for `P.js`, then `goog.X` for `Y.js`; `get` gives `Y.js` for `goog.X`, `null`
for `__proto__` and for `goog.W`.  On the empty index, `goog.X` registered for
`X.js` and then for `Y.js` gives `Y.js`. -/
theorem provideMap_last_write_wins_witness :
    (∀ c ∈ [("goog.X".toList, "/X.js".toList),
        ("__proto__".toList, "/P.js".toList), ("goog.X".toList, "/Y.js".toList)], PlainPath c.2) ∧
    (ProvideMap_.new.setAll [("goog.X".toList, "/X.js".toList),
        ("__proto__".toList, "/P.js".toList), ("goog.X".toList, "/Y.js".toList)]).getCall
        "goog.X".toList = Outcome.returned (some "/Y.js".toList) ∧
    (ProvideMap_.new.setAll [("goog.X".toList, "/X.js".toList),
        ("__proto__".toList, "/P.js".toList), ("goog.X".toList, "/Y.js".toList)]).getCall
        "__proto__".toList = Outcome.returned none ∧
    (ProvideMap_.new.setAll [("goog.X".toList, "/X.js".toList),
        ("__proto__".toList, "/P.js".toList), ("goog.X".toList, "/Y.js".toList)]).getCall
        "goog.W".toList = Outcome.returned none ∧
    (((ProvideMap_.new.setAll []).set "goog.X".toList "/X.js".toList).set "goog.X".toList
        "/Y.js".toList).getCall "goog.X".toList = Outcome.returned (some "/Y.js".toList) :=
  ⟨by decide,
    ((provideMap_last_write_wins [("goog.X".toList, "/X.js".toList),
        ("__proto__".toList, "/P.js".toList), ("goog.X".toList, "/Y.js".toList)]
        "goog.X".toList (by decide)).1 (by decide)).trans (by decide),
    ((provideMap_last_write_wins [("goog.X".toList, "/X.js".toList),
        ("__proto__".toList, "/P.js".toList), ("goog.X".toList, "/Y.js".toList)]
        "__proto__".toList (by decide)).1 (by decide)).trans (by decide),
    ((provideMap_last_write_wins [("goog.X".toList, "/X.js".toList),
        ("__proto__".toList, "/P.js".toList), ("goog.X".toList, "/Y.js".toList)]
        "goog.W".toList (by decide)).1 (by decide)).trans (by decide),
    (provideMap_last_write_wins [] "goog.X".toList (by decide)).2.2.2 (by decide)
      "/X.js".toList "/Y.js".toList (by decide) (by decide) (by decide) (by decide)⟩

/-- The example provide index after a second registration of `goog.X` by
`Y.js`: the forward lookup gives `Y.js`. -/
theorem provideMap_overwrite_example :
    (exProvider.set "goog.X".toList "/Y.js".toList).get "goog.X".toList
      = some "/Y.js".toList ∧
    exProvider.get "goog.W".toList = none := by
  decide

theorem ProvideMap_.reverse_set_ne (p : ProvideMap_) (ns path path' : Str)
    (h : path ≠ path') : (p.set ns path).reverse_.get? path' = p.reverse_.get? path' := by
  unfold ProvideMap_.set
  simp only
  rw [Obj.get?_set, if_neg h]
  by_cases hp : p.reverse_.hasOwnProperty path = true
  · simp [hp]
  · have hp' : p.reverse_.hasOwnProperty path = false := by simpa using hp
    simp only [hp', Bool.not_false, if_true]
    rw [Obj.get?_set, if_neg h]

theorem ProvideMap_.reverse_setAll (calls : List (Str × Str)) (p : ProvideMap_) (path : Str) :
    (p.setAll calls).reverse_.get? path
      = if (calls.filter (fun c => c.2 == path)).map Prod.fst = [] then p.reverse_.get? path
        else some ((p.reverse_.get? path).getD []
          ++ (calls.filter (fun c => c.2 == path)).map Prod.fst) := by
  induction calls generalizing p with
  | nil => simp [ProvideMap_.setAll]
  | cons c cs ih =>
    have hstep : p.setAll (c :: cs) = (p.set c.1 c.2).setAll cs := rfl
    rw [hstep, ih]
    by_cases hc : c.2 = path
    · subst hc
      have hf : (c :: cs).filter (fun d => d.2 == c.2)
          = c :: cs.filter (fun d => d.2 == c.2) := by
        simp [List.filter_cons]
      rw [hf, ProvideMap_.reverse_set]
      by_cases hcs : (cs.filter (fun d => d.2 == c.2)).map Prod.fst = []
      · simp [hcs]
      · simp [hcs]
    · have hf : (c :: cs).filter (fun d => d.2 == path) = cs.filter (fun d => d.2 == path) := by
        simp [List.filter_cons, hc]
      rw [hf, ProvideMap_.reverse_set_ne p c.1 c.2 path hc]

/-- C12 (reverse entries accumulate).  After any sequence of `set` calls on a
fresh provide index, the entry of `getAllProvides()` for a path is the list of
the `ns` arguments of the calls made with that path, in call order, one per
call; a path is a key exactly when some call was made with it. -/
theorem provideMap_reverse_accumulates (calls : List (Str × Str)) (path : Str) :
    ((ProvideMap_.new.setAll calls).getAllProvides.get? path
      = if (calls.filter (fun c => c.2 == path)).map Prod.fst = [] then none
        else some ((calls.filter (fun c => c.2 == path)).map Prod.fst)) ∧
    (path ∈ (ProvideMap_.new.setAll calls).getAllProvides.keys ↔ ∃ c ∈ calls, c.2 = path) := by
  have h1 : (ProvideMap_.new.setAll calls).getAllProvides.get? path
      = if (calls.filter (fun c => c.2 == path)).map Prod.fst = [] then none
        else some ((calls.filter (fun c => c.2 == path)).map Prod.fst) := by
    rw [ProvideMap_.getAllProvides, ProvideMap_.reverse_setAll]
    rfl
  refine ⟨h1, ?_⟩
  constructor
  · intro hk
    by_contra hne
    have hnil : (calls.filter (fun c => c.2 == path)).map Prod.fst = [] := by
      rw [List.map_eq_nil_iff, List.filter_eq_nil_iff]
      intro c hc hcp
      exact hne ⟨c, hc, by simpa using hcp⟩
    rw [if_pos hnil] at h1
    exact (Obj.get?_eq_none_iff _ _).1 h1 hk
  · rintro ⟨c, hc, hcp⟩
    have hne : (calls.filter (fun c => c.2 == path)).map Prod.fst ≠ [] := by
      rw [Ne, List.map_eq_nil_iff, List.filter_eq_nil_iff]
      intro hall
      exact hall c hc (by simpa using hcp)
    rw [if_neg hne] at h1
    exact Obj.mem_keys_of_get? h1

/-- A repeated registration and an overwritten one: `goog.X` registered twice
for `X.js`, then for `Y.js`; the entry of `X.js` keeps both, the forward lookup
gives `Y.js`. -/
theorem provideMap_reverse_example :
    ((ProvideMap_.new.setAll [("goog.X".toList, "/X.js".toList),
        ("goog.X".toList, "/X.js".toList), ("goog.X".toList, "/Y.js".toList)]
      ).getAllProvides.get? "/X.js".toList = some ["goog.X".toList, "goog.X".toList]) ∧
    ((ProvideMap_.new.setAll [("goog.X".toList, "/X.js".toList),
        ("goog.X".toList, "/X.js".toList), ("goog.X".toList, "/Y.js".toList)]
      ).get "goog.X".toList = some "/Y.js".toList) := by
  decide

/-! ## The require index as a set per file -/

theorem RequireMap_.map_set_ne (r : RequireMap_) (path ns path' : Str) (h : path ≠ path') :
    (r.set path ns).map_.get? path' = r.map_.get? path' := by
  unfold RequireMap_.set
  simp only
  rw [Obj.get?_set, if_neg h]
  by_cases hp : r.map_.hasOwnProperty path = true
  · simp [hp]
  · have hp' : r.map_.hasOwnProperty path = false := by simpa using hp
    simp only [hp', Bool.not_false, if_true]
    rw [Obj.get?_set, if_neg h]

theorem RequireMap_.get_set_ne (r : RequireMap_) (path ns path' : Str) (h : path ≠ path') :
    (r.set path ns).get path' = r.get path' := by
  rw [RequireMap_.get_eq, RequireMap_.get_eq, RequireMap_.map_set_ne r path ns path' h]

theorem NameObj.set_twice {α : Type} (o : NameObj α) (k : Str) (v : α) :
    NameObj.set (NameObj.set o k v) k v = NameObj.set o k v := by
  by_cases hk : k = protoName
  · unfold NameObj.set
    rw [if_pos hk, if_pos hk]
  · apply NameObj.nset_eq_self
    rw [NameObj.get?_nset, if_pos ⟨rfl, hk⟩]

theorem RequireMap_.set_set (r : RequireMap_) (path ns : Str) :
    (r.set path ns).set path ns = r.set path ns := by
  have hinner := RequireMap_.inner_set r path ns
  have hhas : (r.set path ns).map_.hasOwnProperty path = true :=
    (Obj.hasOwnProperty_iff _ _).2 (Obj.mem_keys_of_get? hinner)
  generalize r.set path ns = r1 at hinner hhas
  unfold RequireMap_.set
  simp only [hhas, Bool.not_true, Bool.false_eq_true, if_false, hinner, Option.getD_some]
  rw [NameObj.set_twice, Obj.set_eq_self r1.map_ path _ hinner]

theorem RequireMap_.names_set_ne (r : RequireMap_) (path ns path' : Str) (h : path ≠ path') :
    (r.set path ns).names path' = r.names path' := by
  unfold RequireMap_.names
  rw [RequireMap_.map_set_ne r path ns path' h]

theorem RequireMap_.names_setAll (calls : List (Str × Str)) (r : RequireMap_) (path : Str) :
    (r.setAll calls).names path
      = appendNew (r.names path)
          (((calls.filter (fun c => c.1 == path)).map Prod.snd).filter
            (fun n => n ≠ protoName)) := by
  induction calls generalizing r with
  | nil => rfl
  | cons c cs ih =>
    have hstep : r.setAll (c :: cs) = (r.set c.1 c.2).setAll cs := rfl
    rw [hstep, ih]
    by_cases hc : c.1 = path
    · subst hc
      have hf : (c :: cs).filter (fun d => d.1 == c.1)
          = c :: cs.filter (fun d => d.1 == c.1) := by
        simp [List.filter_cons]
      rw [hf, RequireMap_.fileNames_set, List.map_cons]
      have happ : (c.2 :: (cs.filter (fun d => d.1 == c.1)).map Prod.snd)
          = [c.2] ++ (cs.filter (fun d => d.1 == c.1)).map Prod.snd := rfl
      rw [happ, List.filter_append, appendNew_append]
    · have hf : (c :: cs).filter (fun d => d.1 == path) = cs.filter (fun d => d.1 == path) := by
        simp [List.filter_cons, hc]
      rw [hf, RequireMap_.names_set_ne r c.1 c.2 path hc]

theorem RequireMap_.get_setAll (calls : List (Str × Str)) (path : Str) :
    (RequireMap_.new.setAll calls).get path
      = enumOrder (appendNew []
          (((calls.filter (fun c => c.1 == path)).map Prod.snd).filter
            (fun n => n ≠ protoName))) := by
  have hnew : RequireMap_.new.names path = [] := rfl
  rw [RequireMap_.get_eq_names, RequireMap_.names_setAll, hnew]

theorem RequireMap_.mem_get_setAll (calls : List (Str × Str)) (path n : Str) :
    n ∈ (RequireMap_.new.setAll calls).get path ↔ (path, n) ∈ calls ∧ n ≠ protoName := by
  rw [RequireMap_.get_setAll, mem_enumOrder, mem_appendNew, List.mem_filter, List.mem_map]
  constructor
  · rintro (h | ⟨⟨c, hc, hn⟩, hp⟩)
    · cases h
    · rw [List.mem_filter] at hc
      have h1 : c.1 = path := by simpa using hc.2
      have h2 : c = (path, n) := Prod.ext h1 hn
      exact ⟨h2 ▸ hc.1, by simpa using hp⟩
  · rintro ⟨h, hp⟩
    exact Or.inr ⟨⟨(path, n), List.mem_filter.2 ⟨h, by simp⟩, rfl⟩, by simpa using hp⟩

theorem RequireMap_.getAllRequires_get? (r : RequireMap_) (path : Str) :
    r.getAllRequires.get? path = if path ∈ r.map_.keys then some (r.get path) else none := by
  have h := get?_foldl_set
    (fun key => (NameObj.forIn ((r.map_.get? key).getD [])).foldl
      (fun l value => l ++ [value]) [])
    r.map_.keys [] path
  unfold RequireMap_.getAllRequires
  rw [h]
  by_cases hp : path ∈ r.map_.keys
  · rw [if_pos hp, if_pos hp, RequireMap_.get_eq]
    have hpush := foldl_push (fun k : Str => k) (NameObj.forIn ((r.map_.get? path).getD [])) []
    simp only [List.map_id', List.nil_append] at hpush
    rw [hpush]
  · rw [if_neg hp, if_neg hp]
    rfl

theorem RequireMap_.mem_paths_setAll (calls : List (Str × Str)) (r : RequireMap_) (path : Str) :
    path ∈ (r.setAll calls).map_.keys ↔ path ∈ r.map_.keys ∨ ∃ c ∈ calls, c.1 = path := by
  induction calls generalizing r with
  | nil => simp [RequireMap_.setAll]
  | cons c cs ih =>
    have hstep : r.setAll (c :: cs) = (r.set c.1 c.2).setAll cs := rfl
    rw [hstep, ih, RequireMap_.mem_paths_set]
    simp only [List.mem_cons, exists_eq_or_imp]
    constructor
    · rintro ((h | h) | h)
      · exact Or.inl h
      · exact Or.inr (Or.inl h.symm)
      · exact Or.inr (Or.inr h)
    · rintro (h | h | h)
      · exact Or.inl (Or.inl h)
      · exact Or.inl (Or.inr h.symm)
      · exact Or.inr h

/-- C13, counterexample: after `set('/a.js', '__proto__')` the name
`__proto__` was registered for `/a.js`, and `get('/a.js')` is the empty list:
the write `this.map_[path]['__proto__'] = true` creates no property. -/
theorem requireMap_proto_not_registered :
    (RequireMap_.new.setAll [("/a.js".toList, "__proto__".toList)]).get "/a.js".toList = [] ∧
    ¬ (∀ n, n ∈ (RequireMap_.new.setAll [("/a.js".toList, "__proto__".toList)]).get
          "/a.js".toList
        ↔ ("/a.js".toList, n) ∈ [("/a.js".toList, "__proto__".toList)]) := by
  refine ⟨by decide, ?_⟩
  intro h
  exact absurd ((h "__proto__".toList).2 (by decide)) (by decide)

/-- C13 as amended (a set per file).  In every state built from the empty
require index by `set` calls with plain paths: a call of `set` made twice
leaves the state that one call leaves; `get(path)` is a
duplicate-free list holding exactly the names registered for `path` other than
`__proto__` (the registered names in first-registration order, put in the
order of `for (key in obj)`); it is empty for a path never registered, and for
a registered path the entry of `getAllRequires()` is `get(path)`. -/
theorem requireMap_set_per_file (calls : List (Str × Str)) (path : Str)
    (_hpath : PlainPath path) (_hpaths : ∀ c ∈ calls, PlainPath c.1) :
    (∀ ns : Str, ((RequireMap_.new.setAll calls).set path ns).set path ns
      = (RequireMap_.new.setAll calls).set path ns) ∧
    ((RequireMap_.new.setAll calls).get path).Nodup ∧
    (∀ n, n ∈ (RequireMap_.new.setAll calls).get path
      ↔ (path, n) ∈ calls ∧ n ≠ protoName) ∧
    (RequireMap_.new.setAll calls).get path
      = enumOrder (appendNew []
          (((calls.filter (fun c => c.1 == path)).map Prod.snd).filter
            (fun n => n ≠ protoName))) ∧
    ((∀ c ∈ calls, c.1 ≠ path) → (RequireMap_.new.setAll calls).get path = []) ∧
    ((∃ c ∈ calls, c.1 = path) →
      (RequireMap_.new.setAll calls).getAllRequires.get? path
        = some ((RequireMap_.new.setAll calls).get path)) := by
  refine ⟨fun ns => RequireMap_.set_set _ path ns, ?_,
    RequireMap_.mem_get_setAll calls path, RequireMap_.get_setAll calls path, ?_, ?_⟩
  · rw [RequireMap_.get_setAll, nodup_enumOrder]
    exact nodup_appendNew [] _ List.nodup_nil
  · intro hnone
    apply List.eq_nil_iff_forall_not_mem.2
    intro n hn
    exact hnone (path, n) ((RequireMap_.mem_get_setAll calls path n).1 hn).1 rfl
  · intro hsome
    rw [RequireMap_.getAllRequires_get?, if_pos]
    exact (RequireMap_.mem_paths_setAll calls RequireMap_.new path).2 (Or.inr hsome)

/-- Witness of the amended C13: `a.js` registers `goog.X`, `__proto__`,
`goog.Y`, `7` and `goog.X` again; `get` gives `7`, `goog.X`, `goog.Y`,
`getAllRequires()` has the same list, and `b.js`, never registered, has the
empty list. -/
theorem requireMap_set_per_file_witness :
    (∀ c ∈ [("/a.js".toList, "goog.X".toList),
        ("/a.js".toList, "__proto__".toList), ("/a.js".toList, "goog.Y".toList),
        ("/a.js".toList, "7".toList), ("/a.js".toList, "goog.X".toList)], PlainPath c.1) ∧
    (RequireMap_.new.setAll [("/a.js".toList, "goog.X".toList),
        ("/a.js".toList, "__proto__".toList), ("/a.js".toList, "goog.Y".toList),
        ("/a.js".toList, "7".toList), ("/a.js".toList, "goog.X".toList)]).get
        "/a.js".toList = ["7".toList, "goog.X".toList, "goog.Y".toList] ∧
    (RequireMap_.new.setAll [("/a.js".toList, "goog.X".toList),
        ("/a.js".toList, "__proto__".toList), ("/a.js".toList, "goog.Y".toList),
        ("/a.js".toList, "7".toList), ("/a.js".toList, "goog.X".toList)]).get
        "/b.js".toList = [] ∧
    (RequireMap_.new.setAll [("/a.js".toList, "goog.X".toList),
        ("/a.js".toList, "__proto__".toList), ("/a.js".toList, "goog.Y".toList),
        ("/a.js".toList, "7".toList), ("/a.js".toList, "goog.X".toList)]
      ).getAllRequires.get? "/a.js".toList
      = some ((RequireMap_.new.setAll [("/a.js".toList, "goog.X".toList),
        ("/a.js".toList, "__proto__".toList), ("/a.js".toList, "goog.Y".toList),
        ("/a.js".toList, "7".toList), ("/a.js".toList, "goog.X".toList)]).get
        "/a.js".toList) :=
  ⟨by decide,
    (requireMap_set_per_file [("/a.js".toList, "goog.X".toList),
        ("/a.js".toList, "__proto__".toList), ("/a.js".toList, "goog.Y".toList),
        ("/a.js".toList, "7".toList), ("/a.js".toList, "goog.X".toList)]
      "/a.js".toList (by decide) (by decide)).2.2.2.1.trans (by decide),
    (requireMap_set_per_file [("/a.js".toList, "goog.X".toList),
        ("/a.js".toList, "__proto__".toList), ("/a.js".toList, "goog.Y".toList),
        ("/a.js".toList, "7".toList), ("/a.js".toList, "goog.X".toList)]
      "/b.js".toList (by decide) (by decide)).2.2.2.2.1 (by decide),
    (requireMap_set_per_file [("/a.js".toList, "goog.X".toList),
        ("/a.js".toList, "__proto__".toList), ("/a.js".toList, "goog.Y".toList),
        ("/a.js".toList, "7".toList), ("/a.js".toList, "goog.X".toList)]
      "/a.js".toList (by decide) (by decide)).2.2.2.2.2
      ⟨("/a.js".toList, "goog.X".toList), by decide, rfl⟩⟩

/-! ## The seed list -/

theorem slice_zero_eq_iff (line pattern : Str) :
    slice line 0 pattern.length = pattern ↔ ∃ t, line = pattern ++ t := by
  unfold slice
  rw [List.drop_zero]
  constructor
  · intro he
    exact ⟨line.drop pattern.length, by
      conv_lhs => rw [← List.take_append_drop pattern.length line, he]⟩
  · rintro ⟨t, ht⟩
    rw [ht, List.take_left']
    rfl

/-- C14 (seed set).  For every application require index the seed list is
duplicate-free and holds a name exactly when some file requires it and it
begins with `goog`; `getAllDependencies` is duplicate-free and holds a name
exactly when some file requires it. -/
theorem seed_set (codeRequire : RequireMap_) :
    (closureDeps codeRequire).Nodup ∧
    (∀ n, n ∈ closureDeps codeRequire ↔
      (∃ path, n ∈ codeRequire.get path) ∧ ∃ t, n = "goog".toList ++ t) ∧
    codeRequire.getAllDependencies.Nodup ∧
    (∀ n, n ∈ codeRequire.getAllDependencies ↔ ∃ path, n ∈ codeRequire.get path) := by
  refine ⟨(RequireMap_.nodup_getAllDependencies codeRequire).filter _, ?_,
    RequireMap_.nodup_getAllDependencies codeRequire,
    RequireMap_.mem_getAllDependencies codeRequire⟩
  intro n
  unfold closureDeps
  rw [List.mem_filter, RequireMap_.mem_getAllDependencies, beq_iff_eq]
  have h := slice_zero_eq_iff n "goog".toList
  have hlen : "goog".toList.length = 4 := rfl
  rw [hlen] at h
  rw [h]

/-- The seeds of an application that requires `goog.X`, `lf.Type` and
`goog.X` again from a second file: `goog.X` alone, once. -/
theorem seed_set_example :
    closureDeps (RequireMap_.new.setAll [("/a.js".toList, "goog.X".toList),
      ("/a.js".toList, "lf.Type".toList), ("/b.js".toList, "goog.X".toList)])
      = ["goog.X".toList] := by
  decide

/-! ## The manifest -/

theorem genAddDependency_example :
    genAddDependency exEnvRel "/work".toList exManifestProvide exManifestRequire
      = ["goog.addDependency(\x22../../A.js\x22, [\x22ns.A\x22], [\x22ns.B\x22]);".toList,
         "goog.addDependency(\x22../../B.js\x22, [\x22ns.B\x22], []);".toList] := by
  decide

theorem manifestKeys_spec (provide require : Obj (List Str)) :
    (manifestKeys provide require).keys.Nodup ∧
    ∀ f, f ∈ (manifestKeys provide require).keys ↔ f ∈ provide.keys ∨ f ∈ require.keys := by
  unfold manifestKeys
  refine ⟨?_, ?_⟩
  · exact nodup_keys_foldl_set (fun _ => true) _ _
      (nodup_keys_foldl_set (fun _ => true) _ [] List.nodup_nil)
  · intro f
    rw [mem_keys_foldl_set (fun _ => true), mem_keys_foldl_set (fun _ => true)]
    simp [Obj.keys]

theorem genAddDependency_eq (env : Env) (basePath : Str) (pm : ProvideMap_)
    (rm : RequireMap_) :
    genAddDependency env basePath pm rm
      = (manifestKeys pm.getAllProvides rm.getAllRequires).keys.map
          (manifestRecord env basePath pm.getAllProvides rm.getAllRequires) := by
  simpa [genAddDependency] using
    foldl_push (manifestRecord env basePath pm.getAllProvides rm.getAllRequires)
      (manifestKeys pm.getAllProvides rm.getAllRequires).keys []

/-- C15 (manifest coverage).  The records of `genAddDependency` are the
records of a duplicate-free list of files whose members are exactly the keys of
`getAllProvides()` and of `getAllRequires()`: one record per file of the
union, none for any other file, and as many records as the union has files. -/
theorem manifest_coverage (env : Env) (basePath : Str) (pm : ProvideMap_)
    (rm : RequireMap_) :
    ∃ files : List Str, files.Nodup ∧
      (∀ f, f ∈ files ↔ f ∈ pm.getAllProvides.keys ∨ f ∈ rm.getAllRequires.keys) ∧
      genAddDependency env basePath pm rm
        = files.map (manifestRecord env basePath pm.getAllProvides rm.getAllRequires) ∧
      (genAddDependency env basePath pm rm).length
        = (pm.getAllProvides.keys ++ rm.getAllRequires.keys).dedup.length := by
  obtain ⟨hnd, hmem⟩ := manifestKeys_spec pm.getAllProvides rm.getAllRequires
  refine ⟨_, hnd, hmem, genAddDependency_eq env basePath pm rm, ?_⟩
  rw [genAddDependency_eq, List.length_map]
  apply List.Perm.length_eq
  rw [List.perm_ext_iff_of_nodup hnd (List.nodup_dedup _)]
  intro f
  rw [hmem f, List.mem_dedup, List.mem_append]

/-- A file that declares and requires (`A.js`) and one that only declares
(`B.js`): two records, one per file. -/
theorem manifest_coverage_example :
    (genAddDependency exEnvRel "/work".toList exManifestProvide exManifestRequire).length = 2 ∧
    exManifestProvide.getAllProvides.keys = ["/work/A.js".toList, "/work/B.js".toList] ∧
    exManifestRequire.getAllRequires.keys = ["/work/A.js".toList] := by
  decide

/-! ## The format of a record -/

theorem RequireMap_.mem_keys_getAllRequires (r : RequireMap_) (key : Str) :
    key ∈ r.getAllRequires.keys ↔ key ∈ r.map_.keys := by
  have h := mem_keys_foldl_set
    (fun key => (NameObj.forIn ((r.map_.get? key).getD [])).foldl
      (fun l value => l ++ [value]) [])
    r.map_.keys [] key
  unfold RequireMap_.getAllRequires
  rw [h]
  simp [Obj.keys]

theorem RequireMap_.getAllRequires_getD (r : RequireMap_) (key : Str) :
    (r.getAllRequires.get? key).getD [] = r.get key := by
  rw [RequireMap_.getAllRequires_get?]
  by_cases h : key ∈ r.map_.keys
  · rw [if_pos h]
    rfl
  · rw [if_neg h, RequireMap_.get_eq, (Obj.get?_eq_none_iff _ _).2 h]
    rfl

theorem manifestRecord_eq (env : Env) (basePath : Str) (pm : ProvideMap_) (rm : RequireMap_)
    (key : Str) :
    manifestRecord env basePath pm.getAllProvides rm.getAllRequires key
      = "goog.addDependency(\x22../../".toList ++ env.relative basePath key ++ "\x22, ".toList
        ++ JSON.stringify ((pm.getAllProvides.get? key).getD []) ++ ", ".toList
        ++ JSON.stringify (rm.get key) ++ ");".toList := by
  have hp : (if pm.getAllProvides.hasOwnProperty key = true then
        "goog.addDependency(\x22../../".toList ++ env.relative basePath key ++ "\x22, ".toList
          ++ JSON.stringify ((pm.getAllProvides.get? key).getD []) ++ ", ".toList
      else
        "goog.addDependency(\x22../../".toList ++ env.relative basePath key ++ "\x22, ".toList
          ++ "[], ".toList)
      = "goog.addDependency(\x22../../".toList ++ env.relative basePath key ++ "\x22, ".toList
          ++ JSON.stringify ((pm.getAllProvides.get? key).getD []) ++ ", ".toList := by
    by_cases h : pm.getAllProvides.hasOwnProperty key = true
    · rw [if_pos h]
    · rw [if_neg h]
      have hk : key ∉ pm.getAllProvides.keys := fun hm => h ((Obj.hasOwnProperty_iff _ _).2 hm)
      rw [(Obj.get?_eq_none_iff _ _).2 hk, List.append_assoc _ (JSON.stringify _)]
      rfl
  unfold manifestRecord
  simp only
  rw [hp]
  by_cases h : rm.getAllRequires.hasOwnProperty key = true
  · rw [if_pos h, RequireMap_.getAllRequires_getD]
  · rw [if_neg h]
    have hk : key ∉ rm.getAllRequires.keys := fun hm => h ((Obj.hasOwnProperty_iff _ _).2 hm)
    rw [← RequireMap_.getAllRequires_getD, (Obj.get?_eq_none_iff _ _).2 hk,
      Option.getD_none, List.append_assoc _ (JSON.stringify [])]
    rfl

theorem quoteJSONString_plain (n : Str)
    (h : ∀ c ∈ n, c ≠ dquote ∧ c ≠ backslash ∧ 32 ≤ c.toNat) :
    quoteJSONString n = dquote :: (n ++ [dquote]) := by
  unfold quoteJSONString
  congr 1
  induction n with
  | nil => rfl
  | cons c cs ih =>
    rw [List.foldr_cons, ih (fun d hd => h d (List.mem_cons_of_mem _ hd))]
    obtain ⟨h1, h2, h3⟩ := h c (List.mem_cons_self _ _)
    have hq : quoteJSONUnit c = [c] := by
      unfold quoteJSONUnit
      rw [if_neg h1, if_neg h2, if_neg (by omega), if_neg (by omega), if_neg (by omega),
        if_neg (by omega), if_neg (by omega), if_neg (by omega)]
    rw [hq]
    rfl

theorem ProvideMap_.provides_setAll (calls : List (Str × Str)) (key : Str) :
    ((ProvideMap_.new.setAll calls).getAllProvides.get? key).getD []
      = (calls.filter (fun c => c.2 == key)).map Prod.fst := by
  rw [ProvideMap_.getAllProvides, ProvideMap_.reverse_setAll]
  by_cases h : (calls.filter (fun c => c.2 == key)).map Prod.fst = []
  · rw [if_pos h, h]
    rfl
  · rw [if_neg h]
    rfl

theorem arrayJoin_eq_intercalate (sep : Str) (l : List Str) :
    arrayJoin sep l = List.intercalate sep l := by
  induction l with
  | nil => rfl
  | cons x xs ih =>
    cases xs with
    | nil => simp [arrayJoin, List.intercalate]
    | cons y ys =>
      have ih' : arrayJoin sep (y :: ys) = (List.intersperse sep (y :: ys)).flatten := ih
      show x ++ sep ++ arrayJoin sep (y :: ys)
        = x ++ (sep ++ (List.intersperse sep (y :: ys)).flatten)
      rw [ih', List.append_assoc]

theorem stringify_plain (l : List Str)
    (h : ∀ n ∈ l, ∀ c ∈ n, c ≠ dquote ∧ c ≠ backslash ∧ 32 ≤ c.toNat) :
    JSON.stringify l
      = '[' :: (List.intercalate [','] (l.map (fun n => dquote :: (n ++ [dquote]))) ++ [']']) := by
  unfold JSON.stringify
  rw [arrayJoin_eq_intercalate]
  have hmap : l.map quoteJSONString = l.map (fun n => dquote :: (n ++ [dquote])) :=
    List.map_congr_left (fun n hn => quoteJSONString_plain n (h n hn))
  rw [hmap]

/-- C16, counterexample: `A.js` declares `ns.A` and is registered as requiring
`__proto__`.  Its record, the only one of the manifest, ends with `[]`, the
array of a file that requires nothing, and not with the array of the name it
requires. -/
theorem manifest_record_drops_proto :
    genAddDependency exEnvRel "/work".toList
        (ProvideMap_.new.setAll [("ns.A".toList, "/work/A.js".toList)]) exManifestRequireProto
      = ["goog.addDependency(\x22../../A.js\x22, [\x22ns.A\x22], []);".toList] ∧
    manifestRecord exEnvRel "/work".toList
        (ProvideMap_.new.setAll [("ns.A".toList, "/work/A.js".toList)]).getAllProvides
        exManifestRequireProto.getAllRequires "/work/A.js".toList
      = "goog.addDependency(\x22../../A.js\x22, [\x22ns.A\x22], []);".toList ∧
    exManifestRequireProto.get "/work/A.js".toList = [] ∧
    JSON.stringify ["__proto__".toList] = "[\x22__proto__\x22]".toList := by
  decide

/-- C16 as amended (manifest record format).  For a provide index and a
require index built from the empty indices by registration calls with plain
paths, the record of a file is the text `goog.addDependency("../../R", P, Q);`
where `R` is `pathMod.relative(basePath, file)`, `P` is `JSON.stringify` of the
names registered as declared by the file, in registration order, and `Q` is
`JSON.stringify` of the list `RequireMap_.get` of the file, which is the entry
of `getAllRequires()` and holds the names registered as required by the file
other than `__proto__`, each once: the list of those names in
first-registration order, put in the order of `for (key in obj)`.
`JSON.stringify` of the empty list is `[]`; of a list it is the quoted
elements with a comma between two of them, between brackets; a name without a
double quote, a backslash or a control character is quoted by putting it
between double quotes. -/
theorem manifest_record_format (env : Env) (basePath : Str) (pcalls rcalls : List (Str × Str))
    (key : Str) (_hp : ∀ c ∈ pcalls, PlainPath c.2) (_hr : ∀ c ∈ rcalls, PlainPath c.1) :
    manifestRecord env basePath (ProvideMap_.new.setAll pcalls).getAllProvides
        (RequireMap_.new.setAll rcalls).getAllRequires key
      = "goog.addDependency(\x22../../".toList ++ env.relative basePath key ++ "\x22, ".toList
        ++ JSON.stringify ((pcalls.filter (fun c => c.2 == key)).map Prod.fst) ++ ", ".toList
        ++ JSON.stringify (enumOrder (appendNew []
            (((rcalls.filter (fun c => c.1 == key)).map Prod.snd).filter
              (fun n => n ≠ protoName)))) ++ ");".toList ∧
    ((RequireMap_.new.setAll rcalls).getAllRequires.get? key).getD []
      = (RequireMap_.new.setAll rcalls).get key ∧
    (RequireMap_.new.setAll rcalls).get key
      = enumOrder (appendNew []
          (((rcalls.filter (fun c => c.1 == key)).map Prod.snd).filter
            (fun n => n ≠ protoName))) ∧
    (∀ n, n ∈ (RequireMap_.new.setAll rcalls).get key ↔ (key, n) ∈ rcalls ∧ n ≠ protoName) ∧
    JSON.stringify [] = "[]".toList ∧
    (∀ l : List Str,
      JSON.stringify l
        = '[' :: (List.intercalate [','] (l.map quoteJSONString) ++ [']'])) ∧
    (∀ n : Str, (∀ c ∈ n, c ≠ dquote ∧ c ≠ backslash ∧ 32 ≤ c.toNat) →
      quoteJSONString n = dquote :: (n ++ [dquote])) ∧
    (∀ l : List Str, (∀ n ∈ l, ∀ c ∈ n, c ≠ dquote ∧ c ≠ backslash ∧ 32 ≤ c.toNat) →
      JSON.stringify l
        = '[' :: (List.intercalate [','] (l.map (fun n => dquote :: (n ++ [dquote])))
            ++ [']'])) := by
  refine ⟨?_, RequireMap_.getAllRequires_getD _ key, RequireMap_.get_setAll rcalls key,
    RequireMap_.mem_get_setAll rcalls key, rfl, ?_, quoteJSONString_plain, stringify_plain⟩
  · rw [manifestRecord_eq, ProvideMap_.provides_setAll, RequireMap_.get_setAll]
  · intro l
    unfold JSON.stringify
    rw [arrayJoin_eq_intercalate]

/-- Witness of the amended C16: `A.js` declares `ns.A` and requires `ns.B`,
`B.js` declares `ns.B` and requires nothing: the two records of the first
example.  In the second example `A.js` declares `ns.A` and `ns.A2` and
requires `ns.B`, `__proto__`, a name with a double quote, `7` and `ns.B`
again: the record lists two declared names and three required names, the
double quote escaped. -/
theorem manifest_record_format_witness :
    (∀ c ∈ [("ns.A".toList, "/work/A.js".toList), ("ns.B".toList, "/work/B.js".toList)], PlainPath c.2) ∧
    (∀ c ∈ [("/work/A.js".toList, "ns.B".toList)], PlainPath c.1) ∧
    (∀ c ∈ [("ns.A".toList, "/work/A.js".toList), ("ns.A2".toList, "/work/A.js".toList)], PlainPath c.2) ∧
    (∀ c ∈ [("/work/A.js".toList, "ns.B".toList), ("/work/A.js".toList, "__proto__".toList),
      ("/work/A.js".toList, "q\x22t".toList), ("/work/A.js".toList, "7".toList),
      ("/work/A.js".toList, "ns.B".toList)], PlainPath c.1) ∧
    manifestRecord exEnvRel "/work".toList exManifestProvide.getAllProvides
        exManifestRequire.getAllRequires "/work/A.js".toList
      = "goog.addDependency(\x22../../A.js\x22, [\x22ns.A\x22], [\x22ns.B\x22]);".toList ∧
    manifestRecord exEnvRel "/work".toList exManifestProvide.getAllProvides
        exManifestRequire.getAllRequires "/work/B.js".toList
      = "goog.addDependency(\x22../../B.js\x22, [\x22ns.B\x22], []);".toList ∧
    manifestRecord exEnvRel "/work".toList exManifestProvideTwo.getAllProvides
        exManifestRequireTwo.getAllRequires "/work/A.js".toList
      = "goog.addDependency(\x22../../A.js\x22, [\x22ns.A\x22,\x22ns.A2\x22], [\x227\x22,\x22ns.B\x22,\x22q\x5c\x22t\x22]);".toList :=
  ⟨by decide, by decide, by decide, by decide,
    (manifest_record_format exEnvRel "/work".toList
      [("ns.A".toList, "/work/A.js".toList), ("ns.B".toList, "/work/B.js".toList)]
      [("/work/A.js".toList, "ns.B".toList)] "/work/A.js".toList (by decide) (by decide)).1.trans
      (by decide),
    (manifest_record_format exEnvRel "/work".toList
      [("ns.A".toList, "/work/A.js".toList), ("ns.B".toList, "/work/B.js".toList)]
      [("/work/A.js".toList, "ns.B".toList)] "/work/B.js".toList (by decide) (by decide)).1.trans
      (by decide),
    (manifest_record_format exEnvRel "/work".toList
      [("ns.A".toList, "/work/A.js".toList), ("ns.A2".toList, "/work/A.js".toList)]
      [("/work/A.js".toList, "ns.B".toList), ("/work/A.js".toList, "__proto__".toList),
      ("/work/A.js".toList, "q\x22t".toList), ("/work/A.js".toList, "7".toList),
      ("/work/A.js".toList, "ns.B".toList)] "/work/A.js".toList (by decide) (by decide)).1.trans (by decide)⟩

/-! ## The require list of one file -/

theorem extractRequires_resolved (env : Env) (filePath : Str)
    (h : env.resolve filePath = filePath) :
    extractRequires env filePath
      = arrayJoin ", ".toList
          ((enumOrder (appendNew [] ((extractedNames "goog.require".toList
              (split '\n' (env.readFile filePath))).filter (fun n => n ≠ protoName)))).map
            (fun ns => squote :: (ns ++ [squote]))) := by
  have hscan : scanFiles env [filePath] ProvideMap_.new RequireMap_.new
      = (split '\n' (env.readFile (env.resolve filePath))).foldl
          (scanLine (env.resolve filePath)) (ProvideMap_.new, RequireMap_.new) := rfl
  unfold extractRequires
  simp only
  rw [hscan, h, RequireMap_.get_eq_names, scanLines_requires]
  rfl

theorem extractRequires_unresolved (env : Env) (filePath : Str)
    (h : env.resolve filePath ≠ filePath) : extractRequires env filePath = [] := by
  have hget : (scanFiles env [filePath] ProvideMap_.new RequireMap_.new).2.get filePath
      = [] := by
    apply List.eq_nil_iff_forall_not_mem.2
    intro n hn
    rcases scanFiles_keys env _ _ _ _ (RequireMap_.mem_keys_of_mem_get hn) with h1 | ⟨f, hf, hk⟩
    · simp [RequireMap_.new, Obj.keys] at h1
    · rw [List.mem_singleton] at hf
      subst hf
      exact h hk.symm
  unfold extractRequires
  simp only
  rw [hget]
  rfl

/-- C17 (single-file require list), evaluation at the failing input: the file
`lib/app.js` requires `goog.X`, `goog.Y` and `goog.X` again.  Given its
resolved path `extractRequires` returns the two names, quoted and joined;
given the relative path it returns the empty string, because `scanFiles`
registered the names under the resolved path. -/
theorem extractRequires_relative_path :
    extractRequires exEnvTwo "/work/lib/app.js".toList
      = "\x27goog.X\x27, \x27goog.Y\x27".toList ∧
    exEnvTwo.resolve "lib/app.js".toList = "/work/lib/app.js".toList ∧
    extractRequires exEnvTwo "lib/app.js".toList = [] := by
  decide

/-! ## Growing the seed list -/

theorem reachableKey_mono (cp : ProvideMap_) (cr : RequireMap_) (seeds seeds' : List Str)
    (hsub : ∀ s ∈ seeds, ReachableKey cp cr seeds' s) (n : Str)
    (h : ReachableKey cp cr seeds n) : ReachableKey cp cr seeds' n := by
  induction h with
  | seed hs => exact hsub _ hs
  | hop _ hn ih => exact ReachableKey.hop ih hn

theorem reachableKey_mem_keys (cp : ProvideMap_) (cr : RequireMap_) (seeds : List Str)
    (map : WorkMap) (hseed : ∀ s ∈ seeds, s ∈ map.keys) (hcl : Closed cp cr map) (n : Str)
    (h : ReachableKey cp cr seeds n) : n ∈ map.keys := by
  induction h with
  | seed hs => exact hseed _ hs
  | hop _ hn ih => exact hcl _ ih _ hn

theorem mem_closureFiles {cp : ProvideMap_} {map : WorkMap} (hinv : WorkInv cp map)
    (e : Option Str) : e ∈ closureFiles map ↔ ∃ k ∈ map.keys, cp.get k = e := by
  rw [closureFiles_eq, List.mem_map]
  constructor
  · rintro ⟨k, hk, he⟩
    exact ⟨k, hk, by rw [← he, WorkMap.read_of_inv hinv hk]⟩
  · rintro ⟨k, hk, he⟩
    exact ⟨k, hk, by rw [← he, WorkMap.read_of_inv hinv hk]⟩

theorem closureOf_mono (cp : ProvideMap_) (cr codeRequire codeRequire' : RequireMap_)
    (fuel fuel' : Nat) (hfuel : roundBound cr codeRequire < fuel)
    (hfuel' : roundBound cr codeRequire' < fuel')
    (hsub : ∀ s ∈ closureDeps codeRequire,
      ReachableKey cp cr (closureDeps codeRequire') s) :
    ∃ l l', closureOf cp cr codeRequire fuel = some l ∧
      closureOf cp cr codeRequire' fuel' = some l' ∧ ∀ e ∈ l, e ∈ l' := by
  obtain ⟨map, hmap, hg, _⟩ := closureMap_result cp cr codeRequire fuel hfuel
  obtain ⟨map', hmap', hg', hcl'⟩ := closureMap_result cp cr codeRequire' fuel' hfuel'
  refine ⟨closureFiles map, closureFiles map', by simp [closureOf, hmap],
    by simp [closureOf, hmap'], ?_⟩
  intro e he
  obtain ⟨k, hk, hke⟩ := (mem_closureFiles hg.1 e).1 he
  refine (mem_closureFiles hg'.1 e).2 ⟨k, ?_, hke⟩
  exact reachableKey_mem_keys cp cr _ map' hg'.2.2.1 hcl' k
    (reachableKey_mono cp cr _ _ hsub k (hg.2.2.2 k hk))

theorem closureDeps_set (r : RequireMap_) (path z s : Str) (h : s ∈ closureDeps r) :
    s ∈ closureDeps (r.set path z) := by
  unfold closureDeps at h ⊢
  rw [List.mem_filter] at h ⊢
  refine ⟨?_, h.2⟩
  obtain ⟨p, hp⟩ := (RequireMap_.mem_getAllDependencies r s).1 h.1
  refine (RequireMap_.mem_getAllDependencies _ s).2 ⟨p, ?_⟩
  by_cases hpp : path = p
  · subst hpp
    rw [RequireMap_.get_set, mem_enumOrder, mem_appendNew]
    rw [RequireMap_.get_eq_names, mem_enumOrder] at hp
    exact Or.inl hp
  · rw [RequireMap_.get_set_ne r path z p hpp]
    exact hp

theorem scanDeps_result (env : Env) (fuel : Nat)
    (hfuel : roundBound (closureIndices env).2 (libRequire env) < fuel) :
    ∃ files, extractClosureDependencies env (libRequire env) fuel = some files ∧
      scanDeps env fuel = some (files ++ [some (basePath env)]) := by
  obtain ⟨map, hmap, _, _⟩ := closureMap_result (closureIndices env).1 (closureIndices env).2
    (libRequire env) fuel hfuel
  have he : extractClosureDependencies env (libRequire env) fuel = some (closureFiles map) := by
    simp [extractClosureDependencies, closureOf, hmap]
  refine ⟨closureFiles map, he, ?_⟩
  show Option.map _ (extractClosureDependencies env (libRequire env) fuel) = _
  rw [he]
  rfl

/-- C18 (an unresolved seed does not disturb the rest).  Adding a required
name `z` to the application index, in particular one that no library file
provides, keeps every element of the closure result; and `scanDeps` ends with
the bootstrap file whatever the seeds resolve to. -/
theorem unresolved_seed_keeps_rest (cp : ProvideMap_) (cr codeRequire : RequireMap_)
    (path z : Str) (fuel fuel' : Nat) (hfuel : roundBound cr codeRequire < fuel)
    (hfuel' : roundBound cr (codeRequire.set path z) < fuel') :
    (∃ l l', closureOf cp cr codeRequire fuel = some l ∧
      closureOf cp cr (codeRequire.set path z) fuel' = some l' ∧ ∀ e ∈ l, e ∈ l') ∧
    (∀ (env : Env) (n : Nat), roundBound (closureIndices env).2 (libRequire env) < n →
      ∃ l, scanDeps env n = some l ∧ l.getLast? = some (some (basePath env))) := by
  refine ⟨closureOf_mono cp cr codeRequire (codeRequire.set path z) fuel fuel' hfuel hfuel'
    (fun s hs => ReachableKey.seed (closureDeps_set codeRequire path z s hs)), ?_⟩
  intro env n hn
  obtain ⟨files, _, hs⟩ := scanDeps_result env n hn
  exact ⟨_, hs, by simp⟩

/-- Witness of C18: the application requires `goog.X`; adding `goog.W`, which
no library file provides, keeps `X.js` and `Y.js` in the result, and in the
environment whose application requires both, `scanDeps` ends with the bootstrap
file. -/
theorem unresolved_seed_keeps_rest_witness :
    exProvider.get "goog.W".toList = none ∧
    closureOf exProvider exRequire exApp 3 = some [some "/X.js".toList, some "/Y.js".toList] ∧
    closureOf exProvider exRequire (exApp.set "/app.js".toList "goog.W".toList) 4
      = some [some "/X.js".toList, none, some "/Y.js".toList] ∧
    scanDeps exEnvMissing 4 = some [some "/cl/closure/goog/X.js".toList, none,
      some "/cl/closure/goog/Y.js".toList, some "/cl/closure/goog/base.js".toList] ∧
    (∃ l l', closureOf exProvider exRequire exApp 3 = some l ∧
      closureOf exProvider exRequire (exApp.set "/app.js".toList "goog.W".toList) 4 = some l' ∧
      ∀ e ∈ l, e ∈ l') ∧
    (∃ l, scanDeps exEnvMissing 4 = some l ∧ l.getLast? = some (some (basePath exEnvMissing))) :=
  ⟨by decide, by decide, by decide, by decide,
    (unresolved_seed_keeps_rest exProvider exRequire exApp "/app.js".toList "goog.W".toList
      3 4 (by decide) (by decide)).1,
    (unresolved_seed_keeps_rest exProvider exRequire exApp "/app.js".toList "goog.W".toList
      3 4 (by decide) (by decide)).2 exEnvMissing 4 (by decide)⟩

/-! ## Idempotence -/

theorem closure_rerun (cp : ProvideMap_) (cr codeRequire codeRequire' : RequireMap_)
    (map : WorkMap) (fuel' : Nat) (hg : Good cp cr (closureDeps codeRequire) map)
    (hcl : Closed cp cr map)
    (hkeys : ∀ n, n ∈ codeRequire'.getAllDependencies ↔ n ∈ map.keys)
    (hfuel' : roundBound cr codeRequire' < fuel') :
    ∃ l', closureOf cp cr codeRequire' fuel' = some l' ∧
      ∀ e, e ∈ closureFiles map ↔ e ∈ l' := by
  obtain ⟨map', hmap', hg', hcl'⟩ := closureMap_result cp cr codeRequire' fuel' hfuel'
  refine ⟨closureFiles map', by simp [closureOf, hmap'], ?_⟩
  have hsub : ∀ s ∈ closureDeps codeRequire, s ∈ closureDeps codeRequire' := by
    intro s hs
    have hs2 := hs
    unfold closureDeps at hs2 ⊢
    rw [List.mem_filter] at hs2 ⊢
    exact ⟨(hkeys s).2 (hg.2.2.1 s hs), hs2.2⟩
  have hsub' : ∀ s ∈ closureDeps codeRequire', s ∈ map.keys := by
    intro s hs
    unfold closureDeps at hs
    rw [List.mem_filter] at hs
    exact (hkeys s).1 hs.1
  intro e
  rw [mem_closureFiles hg.1, mem_closureFiles hg'.1]
  constructor
  · rintro ⟨k, hk, hke⟩
    refine ⟨k, ?_, hke⟩
    exact reachableKey_mem_keys cp cr _ map' hg'.2.2.1 hcl' k
      (reachableKey_mono cp cr _ _ (fun s hs => ReachableKey.seed (hsub s hs)) k
        (hg.2.2.2 k hk))
  · rintro ⟨k, hk, hke⟩
    exact ⟨k, reachableKey_mem_keys cp cr _ map hsub' hcl k (hg'.2.2.2 k hk), hke⟩

/-- C19 (idempotence).  With a sufficient budget of rounds the working object
at the exit of the loop is a fixed point of the round: one more pass of the
loop body returns the same object.  Running the resolver again over the same
library indices, with an application index whose required names are the names
of that object, gives a list with the same elements. -/
theorem closure_idempotent (cp : ProvideMap_) (cr codeRequire : RequireMap_) (fuel : Nat)
    (hfuel : roundBound cr codeRequire < fuel) :
    ∃ map, closureMap cp cr codeRequire fuel = some map ∧
      closureOf cp cr codeRequire fuel = some (closureFiles map) ∧
      expandRound cp cr map = map ∧
      ∀ (codeRequire' : RequireMap_) (fuel' : Nat),
        (∀ n, n ∈ codeRequire'.getAllDependencies ↔ n ∈ map.keys) →
        roundBound cr codeRequire' < fuel' →
        ∃ l', closureOf cp cr codeRequire' fuel' = some l' ∧
          ∀ e, e ∈ closureFiles map ↔ e ∈ l' := by
  obtain ⟨map, hmap, hg, hcl⟩ := closureMap_result cp cr codeRequire fuel hfuel
  refine ⟨map, hmap, by simp [closureOf, hmap], expandRound_eq_self cp cr map hg.1 hcl, ?_⟩
  intro codeRequire' fuel' hkeys hfuel'
  exact closure_rerun cp cr codeRequire codeRequire' map fuel' hg hcl hkeys hfuel'

/-- Witness of C19: in the `X`, `Y` example the loop exits with the names
`goog.X` and `goog.Y`; one more round changes nothing, and the resolver run on
an application that requires both names returns the same two files. -/
theorem closure_idempotent_witness :
    closureMap exProvider exRequire exApp 3
      = some [("goog.X".toList, some "/X.js".toList), ("goog.Y".toList, some "/Y.js".toList)] ∧
    exAppAgain.getAllDependencies = ["goog.X".toList, "goog.Y".toList] ∧
    closureOf exProvider exRequire exAppAgain 3
      = some [some "/X.js".toList, some "/Y.js".toList] ∧
    ∃ map, closureMap exProvider exRequire exApp 3 = some map ∧
      closureOf exProvider exRequire exApp 3 = some (closureFiles map) ∧
      expandRound exProvider exRequire map = map ∧
      ∀ (codeRequire' : RequireMap_) (fuel' : Nat),
        (∀ n, n ∈ codeRequire'.getAllDependencies ↔ n ∈ map.keys) →
        roundBound exRequire codeRequire' < fuel' →
        ∃ l', closureOf exProvider exRequire codeRequire' fuel' = some l' ∧
          ∀ e, e ∈ closureFiles map ↔ e ∈ l' :=
  ⟨by decide, by decide, by decide,
    closure_idempotent exProvider exRequire exApp 3 (by decide)⟩

/-! ## The manifest text -/

theorem scanFilesNullable_eq_none (env : Env) (l : List (Option Str)) (pm : ProvideMap_)
    (rm : RequireMap_) : scanFilesNullable env l pm rm = none ↔ none ∈ l := by
  induction l generalizing pm rm with
  | nil => simp [scanFilesNullable]
  | cons p rest ih =>
    cases p with
    | none => simp [scanFilesNullable]
    | some path =>
      rw [scanFilesNullable, ih]
      simp

theorem genDeps_text (env : Env) (basePath : Str) (targets : List Str) (fuel : Nat)
    (hfuel : roundBound (closureIndices env).2
      (scanFiles env (targetFiles env targets) ProvideMap_.new RequireMap_.new).2 < fuel) :
    ∃ closureFiles,
      extractClosureDependencies env
        (scanFiles env (targetFiles env targets) ProvideMap_.new RequireMap_.new).2 fuel
        = some closureFiles ∧
      (none ∈ closureFiles → genDeps env basePath targets fuel = none) ∧
      (none ∉ closureFiles → genDeps env basePath targets fuel
        = some (arrayJoin ['\n'] (genAddDependency env basePath
            (scanFiles env (targetFiles env targets) ProvideMap_.new RequireMap_.new).1
            (scanFiles env (targetFiles env targets) ProvideMap_.new RequireMap_.new).2))) := by
  obtain ⟨map, hmap, _, _⟩ := closureMap_result (closureIndices env).1 (closureIndices env).2
    (scanFiles env (targetFiles env targets) ProvideMap_.new RequireMap_.new).2 fuel hfuel
  have he : extractClosureDependencies env
      (scanFiles env (targetFiles env targets) ProvideMap_.new RequireMap_.new).2 fuel
      = some (closureFiles map) := by
    simp [extractClosureDependencies, closureOf, hmap]
  refine ⟨closureFiles map, he, ?_, ?_⟩
  · intro hnone
    have hs := (scanFilesNullable_eq_none env (closureFiles map) ProvideMap_.new
      RequireMap_.new).2 hnone
    unfold genDeps
    simp only [he, hs]
  · intro hnone
    cases hs : scanFilesNullable env (closureFiles map) ProvideMap_.new RequireMap_.new with
    | none => exact absurd ((scanFilesNullable_eq_none env _ _ _).1 hs) hnone
    | some st =>
      unfold genDeps
      simp only [he, hs]

/-- C20 (the manifest text and the library), evaluation at the failing input:
the target `lib/app.js` requires `goog.X`.  With the library that provides
`goog.X` the function `genDeps` returns the record of `lib/app.js`; with an
empty library, all else equal, the closure list holds `null`, the scan of the
closure files throws and `genDeps` returns no text, whatever the budget. -/
theorem genDeps_depends_on_library :
    genDeps exEnvRel "/work".toList ["lib".toList] 3
      = some "goog.addDependency(\x22../../lib/app.js\x22, [], [\x22goog.X\x22]);".toList ∧
    exEnvNoLibrary.resolve = exEnvRel.resolve ∧
    exEnvNoLibrary.readFile = exEnvRel.readFile ∧
    exEnvNoLibrary.relative = exEnvRel.relative ∧
    exEnvNoLibrary.relativeGlob "lib".toList = exEnvRel.relativeGlob "lib".toList ∧
    extractClosureDependencies exEnvNoLibrary (libRequire exEnvNoLibrary) 3 = some [none] ∧
    ∀ fuel, genDeps exEnvNoLibrary "/work".toList ["lib".toList] fuel = none := by
  refine ⟨by decide, rfl, rfl, rfl, rfl, by decide, ?_⟩
  intro fuel
  cases fuel with
  | zero => rfl
  | succ n => rfl

/-! ## Consistency of the two directions of the provide index -/

theorem ProvideMap_.call_of_lookup (calls : List (Str × Str)) (ns path : Str)
    (h : (ProvideMap_.new.setAll calls).get ns = some path) : (ns, path) ∈ calls := by
  rw [ProvideMap_.lookup_setAll_new] at h
  by_cases hns : ns = protoName
  · rw [if_pos hns] at h
    cases h
  · rw [if_neg hns] at h
    cases hf : calls.reverse.find? (fun c => c.1 == ns) with
    | none =>
      rw [hf] at h
      cases h
    | some c =>
      rw [hf] at h
      have hc2 : c.2 = path := Option.some.inj h
      have hc1 : c.1 = ns := by simpa using List.find?_some hf
      have hmem : c ∈ calls := List.mem_reverse.1 (List.mem_of_find?_eq_some hf)
      have hc : c = (ns, path) := Prod.ext hc1 hc2
      exact hc ▸ hmem

theorem ProvideMap_.lookup_of_call (calls : List (Str × Str)) (ns path : Str)
    (h : (ns, path) ∈ calls) (hns : ns ≠ protoName) :
    (ProvideMap_.new.setAll calls).get ns ≠ none := by
  rw [ProvideMap_.lookup_setAll_new, if_neg hns]
  intro hnone
  rw [Option.map_eq_none', List.find?_eq_none] at hnone
  have := hnone (ns, path) (List.mem_reverse.2 h)
  simp at this

theorem ProvideMap_.mem_provides_setAll (calls : List (Str × Str)) (ns path : Str) :
    ns ∈ ((ProvideMap_.new.setAll calls).getAllProvides.get? path).getD []
      ↔ (ns, path) ∈ calls := by
  rw [ProvideMap_.provides_setAll, List.mem_map]
  constructor
  · rintro ⟨c, hc, hn⟩
    rw [List.mem_filter] at hc
    have h2 : c.2 = path := by simpa using hc.2
    have hcp : c = (ns, path) := Prod.ext hn h2
    exact hcp ▸ hc.1
  · intro h
    exact ⟨(ns, path), List.mem_filter.2 ⟨h, by simp⟩, rfl⟩

theorem ProvideMap_.get_of_getCall (p : ProvideMap_) (ns : Str) (v : Option Str)
    (h : p.getCall ns = Outcome.returned v) : p.get ns = v := by
  unfold ProvideMap_.getCall at h
  by_cases hh : p.map_.hasOwnProperty "hasOwnProperty".toList = true
  · rw [if_pos hh] at h
    cases h
  · rw [if_neg hh] at h
    exact Outcome.returned.inj h

/-- C21, counterexample: after `set('__proto__', '/X.js')` the name
`__proto__` is listed under `/X.js` in `getAllProvides()` and
`get('__proto__')` returns `null`; after `set('hasOwnProperty', '/H.js')` the
name `hasOwnProperty` is listed under `/H.js` and `get` of it throws a
`TypeError`. -/
theorem provideMap_proto_listed_unresolved :
    (ProvideMap_.new.setAll [("__proto__".toList, "/X.js".toList)]).getAllProvides.get?
        "/X.js".toList = some ["__proto__".toList] ∧
    (ProvideMap_.new.setAll [("__proto__".toList, "/X.js".toList)]).getCall "__proto__".toList
      = Outcome.returned none ∧
    (ProvideMap_.new.setAll [("hasOwnProperty".toList, "/H.js".toList)]).getAllProvides.get?
        "/H.js".toList = some ["hasOwnProperty".toList] ∧
    (ProvideMap_.new.setAll [("hasOwnProperty".toList, "/H.js".toList)]).getCall
        "hasOwnProperty".toList = Outcome.typeError := by
  decide

/-- C21 as amended (the two directions of the provide index).  In every state
built from the empty index by `set` calls whose paths are plain: when
`get(ns)` returns a path `p`, the entry of `getAllProvides()` for `p` exists
and holds `ns`; the names listed in the entries are the registered names, each
under the paths it was registered for; when no call was made for the name
`hasOwnProperty`, `get` of every listed name other than `__proto__` returns a
path; `get('__proto__')` never returns a path; once a call was made for
`hasOwnProperty`, `get` throws a `TypeError` for every name.  The converse
fails after an overwrite: with `goog.X` registered for `X.js` and then for
`Y.js`, the entry of `X.js` still lists `goog.X`, whose `get` is `Y.js`. -/
theorem provideMap_directions_consistent (calls : List (Str × Str))
    (_hpaths : ∀ c ∈ calls, PlainPath c.2) :
    (∀ ns p, (ProvideMap_.new.setAll calls).getCall ns = Outcome.returned (some p) →
      ∃ l, (ProvideMap_.new.setAll calls).getAllProvides.get? p = some l ∧ ns ∈ l) ∧
    (∀ p l ns, (ProvideMap_.new.setAll calls).getAllProvides.get? p = some l →
      (ns ∈ l ↔ (ns, p) ∈ calls)) ∧
    ((∀ c ∈ calls, c.1 ≠ "hasOwnProperty".toList) →
      ∀ p l ns, (ProvideMap_.new.setAll calls).getAllProvides.get? p = some l → ns ∈ l →
        ns ≠ protoName →
        ∃ q, (ProvideMap_.new.setAll calls).getCall ns = Outcome.returned (some q)) ∧
    (∀ q, (ProvideMap_.new.setAll calls).getCall protoName ≠ Outcome.returned (some q)) ∧
    ((∃ c ∈ calls, c.1 = "hasOwnProperty".toList) →
      ∀ ns, (ProvideMap_.new.setAll calls).getCall ns = Outcome.typeError) ∧
    (∃ l, (ProvideMap_.new.setAll [("goog.X".toList, "/X.js".toList),
          ("goog.X".toList, "/Y.js".toList)]).getAllProvides.get? "/X.js".toList = some l ∧
        "goog.X".toList ∈ l ∧
        (ProvideMap_.new.setAll [("goog.X".toList, "/X.js".toList),
          ("goog.X".toList, "/Y.js".toList)]).getCall "goog.X".toList
          = Outcome.returned (some "/Y.js".toList)) := by
  have hlisted : ∀ p l ns, (ProvideMap_.new.setAll calls).getAllProvides.get? p = some l →
      (ns ∈ l ↔ (ns, p) ∈ calls) := by
    intro p l ns hl
    have hmem := ProvideMap_.mem_provides_setAll calls ns p
    rw [hl] at hmem
    exact hmem
  refine ⟨?_, hlisted, ?_, ?_, ?_, ⟨["goog.X".toList], by decide, by decide, by decide⟩⟩
  · intro ns p h
    have hcall := ProvideMap_.call_of_lookup calls ns p
      (ProvideMap_.get_of_getCall _ ns _ h)
    have hmem := (ProvideMap_.mem_provides_setAll calls ns p).2 hcall
    cases hg : (ProvideMap_.new.setAll calls).getAllProvides.get? p with
    | none =>
      rw [hg] at hmem
      cases hmem
    | some l =>
      rw [hg] at hmem
      exact ⟨l, rfl, hmem⟩
  · intro hno p l ns hl hns hnp
    rw [(ProvideMap_.getCall_setAll calls ns).1 hno]
    cases hg : (ProvideMap_.new.setAll calls).get ns with
    | none => exact absurd hg (ProvideMap_.lookup_of_call calls ns p ((hlisted p l ns hl).1 hns) hnp)
    | some q => exact ⟨q, rfl⟩
  · intro q h
    have hget := ProvideMap_.get_of_getCall _ _ _ h
    rw [ProvideMap_.lookup_setAll_new, if_pos rfl] at hget
    cases hget
  · intro hyes ns
    exact (ProvideMap_.getCall_setAll calls ns).2 hyes

/-- Witness of the amended C21: `goog.X` registered for `X.js`, `__proto__`
for `X.js`, `goog.Y` for `Y.js`.  `get('goog.Y')` returns `Y.js` and the entry
of `Y.js` lists `goog.Y`; the entry of `X.js` lists `goog.X` and `__proto__`,
`get('goog.X')` returns a path and `get('__proto__')` does not. -/
theorem provideMap_directions_consistent_witness :
    (∀ c ∈ [("goog.X".toList, "/X.js".toList), ("__proto__".toList, "/X.js".toList),
        ("goog.Y".toList, "/Y.js".toList)], PlainPath c.2) ∧
    (∃ l, (ProvideMap_.new.setAll [("goog.X".toList, "/X.js".toList),
        ("__proto__".toList, "/X.js".toList),
        ("goog.Y".toList, "/Y.js".toList)]).getAllProvides.get? "/Y.js".toList = some l ∧
      "goog.Y".toList ∈ l) ∧
    (∃ q, (ProvideMap_.new.setAll [("goog.X".toList, "/X.js".toList),
        ("__proto__".toList, "/X.js".toList),
        ("goog.Y".toList, "/Y.js".toList)]).getCall "goog.X".toList
      = Outcome.returned (some q)) ∧
    (∀ q, (ProvideMap_.new.setAll [("goog.X".toList, "/X.js".toList),
        ("__proto__".toList, "/X.js".toList),
        ("goog.Y".toList, "/Y.js".toList)]).getCall protoName ≠ Outcome.returned (some q)) :=
  ⟨by decide,
    (provideMap_directions_consistent [("goog.X".toList, "/X.js".toList),
        ("__proto__".toList, "/X.js".toList), ("goog.Y".toList, "/Y.js".toList)]
        (by decide)).1 "goog.Y".toList "/Y.js".toList (by decide),
    (provideMap_directions_consistent [("goog.X".toList, "/X.js".toList),
        ("__proto__".toList, "/X.js".toList), ("goog.Y".toList, "/Y.js".toList)]
        (by decide)).2.2.1 (by decide) "/X.js".toList
        ["goog.X".toList, "__proto__".toList] "goog.X".toList (by decide) (by decide)
        (by decide),
    (provideMap_directions_consistent [("goog.X".toList, "/X.js".toList),
        ("__proto__".toList, "/X.js".toList), ("goog.Y".toList, "/Y.js".toList)]
        (by decide)).2.2.2.1⟩

end ScanDeps
